import Mathlib

/-!
Shallow embedding of the `reorganize_modules` transform
(`src/rust-refactor/src/transform/modules.rs`) of the c2rust repository,
together with theorems settling the frozen claims about it.

Machine representation choices:
* `NodeId` is `Nat`; identifiers and source paths are `String`.
* Rust `HashMap`s are association lists (`List (k × v)`) whose `insert`
  overwrites the binding in place; lookup is `List.lookup`.  Iteration
  order of a `HashMap` is unspecified in Rust; the association-list order
  stands in for one fixed iteration order.
* Attribute token streams are rose trees (`TokenTree`); only the token
  shapes the source inspects (identifier tokens, string-literal tokens,
  delimited groups) are distinguished.
* `str::contains` is infix containment on the character list.
-/

abbrev NodeId := Nat

abbrev Ident := String

/-- Rust `str::contains`: the needle occurs as a contiguous substring of the
haystack.  First argument is the haystack, second the needle. -/
def strContains (haystack needle : String) : Bool :=
  decide (needle.toList <:+: haystack.toList)

/-- `HashMap::insert` on an association list: overwrite the binding in place
when the key is present, otherwise append a fresh binding. -/
def alInsert {α β : Type} [BEq α] (m : List (α × β)) (k : α) (v : β) :
    List (α × β) :=
  if (m.lookup k).isSome then
    m.map (fun p => if p.1 == k then (k, v) else p)
  else
    m ++ [(k, v)]

/-- One token tree of an attribute's token stream (`syntax::tokenstream`):
an identifier token, a string-literal token, any other token, or a
delimited subtree. -/
inductive TokenTree where
  | identTok (s : String) : TokenTree
  | strLitTok (s : String) : TokenTree
  | otherTok : TokenTree
  | delimited (ts : List TokenTree) : TokenTree

/-- An attribute (`syntax::ast::Attribute`), reduced to its token stream. -/
structure Attribute where
  tokens : List TokenTree

mutual

/-- Recursive scan of `has_source_header` (modules.rs:489-507): descend into
delimited groups; at an identifier token, test whether its text contains
`source_header` as a substring (`ident.as_str().contains("source_header")`). -/
def ttHasSH : TokenTree → Bool
  | .identTok s => strContains s "source_header"
  | .strLitTok _ => false
  | .otherTok => false
  | .delimited ts => ttsHasSH ts

def ttsHasSH : List TokenTree → Bool
  | [] => false
  | t :: ts => ttHasSH t || ttsHasSH ts

end

/-- `has_source_header` (modules.rs:485-518): some attribute's token stream
holds, anywhere inside, an identifier token whose text contains
`source_header`. -/
def hasSourceHeader (attrs : List Attribute) : Bool :=
  attrs.any (fun a => ttsHasSH a.tokens)

mutual

/-- Recursive scan of `is_std` (modules.rs:524-546): descend into delimited
groups; at a string-literal token, test whether the literal contains
`/usr/include`, `stddef` or `vararg` as a substring. -/
def ttIsStd : TokenTree → Bool
  | .identTok _ => false
  | .strLitTok s =>
      strContains s "/usr/include" || strContains s "stddef" ||
        strContains s "vararg"
  | .otherTok => false
  | .delimited ts => ttsIsStd ts

def ttsIsStd : List TokenTree → Bool
  | [] => false
  | t :: ts => ttIsStd t || ttsIsStd ts

end

/-- `is_std` (modules.rs:520-557). -/
def isStd (attrs : List Attribute) : Bool :=
  attrs.any (fun a => ttsIsStd a.tokens)

mutual

/-- All identifier-token texts nested anywhere in a token tree
(specification-side view of the recursive scans). -/
def ttIdents : TokenTree → List String
  | .identTok s => [s]
  | .strLitTok _ => []
  | .otherTok => []
  | .delimited ts => ttsIdents ts

def ttsIdents : List TokenTree → List String
  | [] => []
  | t :: ts => ttIdents t ++ ttsIdents ts

end

/-- All identifier-token texts nested anywhere in an attribute set. -/
def attrIdents (attrs : List Attribute) : List String :=
  (attrs.map (fun a => ttsIdents a.tokens)).flatten

mutual

/-- All string-literal texts nested anywhere in a token tree. -/
def ttStrLits : TokenTree → List String
  | .identTok _ => []
  | .strLitTok s => [s]
  | .otherTok => []
  | .delimited ts => ttsStrLits ts

def ttsStrLits : List TokenTree → List String
  | [] => []
  | t :: ts => ttStrLits t ++ ttsStrLits ts

end

/-- All string-literal texts nested anywhere in an attribute set. -/
def attrStrLits (attrs : List Attribute) : List String :=
  (attrs.map (fun a => ttsStrLits a.tokens)).flatten

/-- Literal-equality variant of the source-header predicate, written from the
spec's words for the refinement comparison of claim C3: true iff some nested
token, interpreted as an identifier, is literally the marker `source_header`. -/
def hasSourceHeaderLiteral (attrs : List Attribute) : Bool :=
  (attrIdents attrs).any (fun s => s == "source_header")

mutual

theorem ttHasSH_eq_any (t : TokenTree) :
    ttHasSH t = (ttIdents t).any (fun s => strContains s "source_header") := by
  cases t with
  | identTok s => simp [ttHasSH, ttIdents]
  | strLitTok s => simp [ttHasSH, ttIdents]
  | otherTok => simp [ttHasSH, ttIdents]
  | delimited ts => simpa [ttHasSH, ttIdents] using ttsHasSH_eq_any ts

theorem ttsHasSH_eq_any (ts : List TokenTree) :
    ttsHasSH ts = (ttsIdents ts).any (fun s => strContains s "source_header") := by
  cases ts with
  | nil => simp [ttsHasSH, ttsIdents]
  | cons t ts =>
      simp [ttsHasSH, ttsIdents, List.any_append, ttHasSH_eq_any t,
        ttsHasSH_eq_any ts]

end

theorem hasSourceHeader_eq_any (attrs : List Attribute) :
    hasSourceHeader attrs =
      (attrIdents attrs).any (fun s => strContains s "source_header") := by
  induction attrs with
  | nil => simp [hasSourceHeader, attrIdents]
  | cons a attrs ih =>
      simp [hasSourceHeader, attrIdents, List.any_append,
        ttsHasSH_eq_any a.tokens] at *
      simp [ih]

mutual

theorem ttIsStd_eq_any (t : TokenTree) :
    ttIsStd t = (ttStrLits t).any
      (fun s => strContains s "/usr/include" || strContains s "stddef" ||
        strContains s "vararg") := by
  cases t with
  | identTok s => simp [ttIsStd, ttStrLits]
  | strLitTok s => simp [ttIsStd, ttStrLits]
  | otherTok => simp [ttIsStd, ttStrLits]
  | delimited ts => simpa [ttIsStd, ttStrLits] using ttsIsStd_eq_any ts

theorem ttsIsStd_eq_any (ts : List TokenTree) :
    ttsIsStd ts = (ttsStrLits ts).any
      (fun s => strContains s "/usr/include" || strContains s "stddef" ||
        strContains s "vararg") := by
  cases ts with
  | nil => simp [ttsIsStd, ttsStrLits]
  | cons t ts =>
      simp [ttsIsStd, ttsStrLits, List.any_append, ttIsStd_eq_any t,
        ttsIsStd_eq_any ts]

end

theorem isStd_eq_any (attrs : List Attribute) :
    isStd attrs = (attrStrLits attrs).any
      (fun s => strContains s "/usr/include" || strContains s "stddef" ||
        strContains s "vararg") := by
  induction attrs with
  | nil => simp [isStd, attrStrLits]
  | cons a attrs ih =>
      simp [isStd, attrStrLits, List.any_append, ttsIsStd_eq_any a.tokens] at *
      simp [ih]

/-- Item visibility (`syntax::ast::VisibilityKind`), reduced to the cases the
source distinguishes. -/
inductive Vis where
  | public : Vis
  | inherited : Vis
deriving DecidableEq

/-- A foreign declaration inside an `extern` block (`ForeignItem`): a stable
identity, a name, and opaque structural content. -/
structure ForeignItem where
  id : NodeId
  ident : Ident
  content : Nat
deriving DecidableEq

mutual

/-- A declaration node (`syntax::ast::Item`): stable identity, identifier,
attribute set, visibility and kind-specific content. -/
inductive Item where
  | mk (id : NodeId) (ident : Ident) (attrs : List Attribute) (vis : Vis)
      (node : ItemKind) : Item

/-- The kind-specific content of an item (`syntax::ast::ItemKind`), reduced to
the kinds the transform inspects: modules, foreign blocks, `use` declarations
(their path as a list of segment identifiers), the declaration kinds the
dead-import purge matches on (`Ty`, `Fn`, `Struct`), and everything else.
Non-module structural content is an opaque `Nat`. -/
inductive ItemKind where
  | mod (items : List Item) : ItemKind
  | foreignMod (items : List ForeignItem) : ItemKind
  | use (segs : List Ident) : ItemKind
  | struct (content : Nat) : ItemKind
  | fn (content : Nat) : ItemKind
  | ty (content : Nat) : ItemKind
  | other (content : Nat) : ItemKind

end

def Item.id : Item → NodeId
  | .mk i _ _ _ _ => i

def Item.ident : Item → Ident
  | .mk _ n _ _ _ => n

def Item.attrs : Item → List Attribute
  | .mk _ _ a _ _ => a

def Item.vis : Item → Vis
  | .mk _ _ _ v _ => v

def Item.node : Item → ItemKind
  | .mk _ _ _ _ k => k

/-- The whole compilation unit (`syntax::ast::Crate`): the crate root's
ordered top-level items.  The crate root itself is not an `Item`. -/
structure Crate where
  items : List Item

mutual

/-- Equality of token streams (token trees carry no `NodeId`, so `ast_equiv`
on them is plain structural equality). -/
def ttBeq : TokenTree → TokenTree → Bool
  | .identTok a, .identTok b => a == b
  | .strLitTok a, .strLitTok b => a == b
  | .otherTok, .otherTok => true
  | .delimited as, .delimited bs => ttsBeq as bs
  | _, _ => false

def ttsBeq : List TokenTree → List TokenTree → Bool
  | [], [] => true
  | a :: as, b :: bs => ttBeq a b && ttsBeq as bs
  | _, _ => false

end

def attrBeq (a b : Attribute) : Bool :=
  ttsBeq a.tokens b.tokens

def attrsBeq : List Attribute → List Attribute → Bool
  | [], [] => true
  | a :: as, b :: bs => attrBeq a b && attrsBeq as bs
  | _, _ => false

/-- `ast_equiv` on foreign items: every field compared except the `NodeId`. -/
def foreignEquiv (a b : ForeignItem) : Bool :=
  a.ident == b.ident && a.content == b.content

def foreignListEquiv : List ForeignItem → List ForeignItem → Bool
  | [], [] => true
  | a :: as, b :: bs => foreignEquiv a b && foreignListEquiv as bs
  | _, _ => false

mutual

/-- `ast_equiv` (from `ast_manip::AstEquiv`): structural equality that ignores
`NodeId`s (and spans).  `itemEquiv` compares items field by field except the
identity; `kindEquiv` compares kind content, recursing into module bodies. -/
def itemEquiv : Item → Item → Bool
  | .mk _ n1 a1 v1 k1, .mk _ n2 a2 v2 k2 =>
      n1 == n2 && attrsBeq a1 a2 && v1 == v2 && kindEquiv k1 k2

def kindEquiv : ItemKind → ItemKind → Bool
  | .mod i1, .mod i2 => itemListEquiv i1 i2
  | .foreignMod f1, .foreignMod f2 => foreignListEquiv f1 f2
  | .use p1, .use p2 => p1 == p2
  | .struct c1, .struct c2 => c1 == c2
  | .fn c1, .fn c2 => c1 == c2
  | .ty c1, .ty c2 => c1 == c2
  | .other c1, .other c2 => c1 == c2
  | _, _ => false

def itemListEquiv : List Item → List Item → Bool
  | [], [] => true
  | x :: xs, y :: ys => itemEquiv x y && itemListEquiv xs ys
  | _, _ => false

end

mutual

/-- Preorder listing of every item reachable from a list of items, matching
the traversal order of `visit_nodes` / the `Visitor` impl (modules.rs:59-64):
each item, then its module children, then its later siblings. -/
def itemDesc : Item → List Item
  | .mk _ _ _ _ k => kindDesc k

def kindDesc : ItemKind → List Item
  | .mod is => itemsDesc is
  | _ => []

def itemsDesc : List Item → List Item
  | [] => []
  | i :: is => (i :: itemDesc i) ++ itemsDesc is

end

/-- Every item of the crate, in visit order. -/
def allItems (c : Crate) : List Item :=
  itemsDesc c.items

mutual

/-- The `ItemStore` snapshot (the `Visitor` impl, modules.rs:59-64): visit
every item in preorder and record `item.id ↦ item` in the map. -/
def visitItems (acc : List (NodeId × Item)) : List Item → List (NodeId × Item)
  | [] => acc
  | .mk idv nm ats vs k :: is =>
      visitItems (visitKind (alInsert acc idv (.mk idv nm ats vs k)) k) is

def visitKind (acc : List (NodeId × Item)) : ItemKind → List (NodeId × Item)
  | .mod ms => visitItems acc ms
  | _ => acc

end

def buildItemMap (c : Crate) : List (NodeId × Item) :=
  visitItems [] c.items

/-- Total number of items in the crate (observation used to distinguish
concrete crates without a decidable equality on `Crate`). -/
def crateSize (c : Crate) : Nat :=
  (allItems c).length

/-- The working state (`ModuleInformation`, modules.rs:41-46). -/
structure ModuleInformation where
  itemMap : List (NodeId × Item)
  declDestinationMod : List (NodeId × NodeId)
  newNames : List (Ident × Ident)
  stdlibId : NodeId

/-- The compiler session, reduced to the field the transform reads. -/
structure Session where
  localCrateSourceFile : String

/-- `get_source_file` (modules.rs:476-479): the session's source-file path,
converted to a string (`to_str().to_string()`); no base-name extraction is
performed.  The source `unwrap`s the `Option`; a session with a source file
is assumed. -/
def getSourceFile (sess : Session) : String :=
  sess.localCrateSourceFile

/-- The characters after the last `/` of a character list. -/
def afterLastSlash : List Char → List Char
  | [] => []
  | c :: cs =>
    if cs.contains (Char.ofNat 47) then afterLastSlash cs
    else if c = Char.ofNat 47 then cs else c :: cs

/-- The base file name of a path string (the component after the last `/`),
written from the spec's words ("the base file name of the unit being
processed") for the refinement comparison of claim C2. -/
def baseFileName (s : String) : String :=
  String.mk (afterLastSlash s.toList)

/-- The comparison name of a destination candidate (modules.rs:351-357): the
candidate's identifier, or the session's source-file string when that
identifier is empty (the crate root module has an empty identifier). -/
def compareName (sess : Session) (candIdent : Ident) : Ident :=
  if candIdent.isEmpty then getSourceFile sess else candIdent

/-- One step of the candidate scan inside `match_modules`
(modules.rs:347-369): a module item without a source-header marker whose
comparison name is contained in the old module's identifier overwrites the
recorded destination and rename; any other item leaves the state unchanged. -/
def matchScanStep (sess : Session) (oldMod : Item) (oldModItemId : NodeId)
    (inf : ModuleInformation) (i : Item) : ModuleInformation :=
  match i.node with
  | .mod _ =>
    if hasSourceHeader i.attrs then inf
    else
      if strContains oldMod.ident (compareName sess i.ident) then
        { inf with
            declDestinationMod :=
              alInsert inf.declDestinationMod oldModItemId i.id,
            newNames :=
              alInsert inf.newNames oldMod.ident (compareName sess i.ident) }
      else inf
  | _ => inf

/-- `match_modules` (modules.rs:331-372).  Looks up the old (parent) module in
the snapshot.  If its attributes classify it as standard-library, the moved
item is routed to `stdlib_id` and the module is renamed to `stdlib`.
Otherwise, if it carries a source-header marker, every module item of the
crate that does not itself carry the marker is scanned in visit order; a
candidate whose comparison name is contained in the old module's identifier
overwrites the recorded destination and rename. -/
def matchModules (krate : Crate) (sess : Session)
    (oldModItemId oldModId : NodeId) (info : ModuleInformation) :
    ModuleInformation :=
  match info.itemMap.lookup oldModId with
  | none => info
  | some oldMod =>
    if isStd oldMod.attrs then
      { info with
          declDestinationMod :=
            alInsert info.declDestinationMod oldModItemId info.stdlibId,
          newNames := alInsert info.newNames oldMod.ident "stdlib" }
    else if hasSourceHeader oldMod.attrs then
      (allItems krate).foldl (matchScanStep sess oldMod oldModItemId) info
    else info

/-- The candidate-match predicate of the name heuristic: the scanned item is a
module, carries no source-header marker, and its comparison name occurs in the
old module's identifier. -/
def candMatches (sess : Session) (oldModIdent : Ident) (i : Item) : Bool :=
  (match i.node with
   | .mod _ => true
   | _ => false) &&
    !hasSourceHeader i.attrs &&
    strContains oldModIdent (compareName sess i.ident)

/-- The matching phase (modules.rs:87-106): for every module item of the
crate, run `match_modules` on each of its child items. -/
def matchPhase (krate : Crate) (sess : Session) (info : ModuleInformation) :
    ModuleInformation :=
  (allItems krate).foldl
    (fun inf it =>
      match it.node with
      | .mod ms => ms.foldl (fun inf2 mi => matchModules krate sess mi.id it.id inf2) inf
      | _ => inf)
    info

/-- One per-pairing insertion vector of `clean_module_items`
(modules.rs:381-423): empty when the destination module already holds a node
`ast_equiv` to the source item, the item's own identity otherwise; when the
destination identity is absent from the snapshot the item is kept
unconditionally; when the source identity is absent nothing is contributed.
The source panics (`unpack!`) when a present destination is not a module;
that case never arises in the pipeline and is modelled as no contribution. -/
def destVec (info : ModuleInformation) (p : NodeId × NodeId) : List NodeId :=
  match info.itemMap.lookup p.1, info.itemMap.lookup p.2 with
  | some oldItem, some destM =>
    match destM.node with
    | .mod destItems =>
        if destItems.any (fun di => kindEquiv di.node oldItem.node) then []
        else [oldItem.id]
    | _ => []
  | some oldItem, none => [oldItem.id]
  | none, _ => []

/-- Append an insertion vector to a destination's group
(modules.rs:425-431): extend the existing group in place, or create the key
(also when the vector is empty). -/
def appendAt (m : List (NodeId × List NodeId)) (k : NodeId)
    (v : List NodeId) : List (NodeId × List NodeId) :=
  if (m.lookup k).isSome then
    m.map (fun p => if p.1 == k then (p.1, p.2 ++ v) else p)
  else
    m ++ [(k, v)]

/-- Stage 1 of the merge planner (the loop of `clean_module_items`,
modules.rs:381-432): fold over the recorded pairings, grouping the surviving
insertion vectors by destination. -/
def stage1 (info : ModuleInformation) : List (NodeId × List NodeId) :=
  info.declDestinationMod.foldl (fun acc p => appendAt acc p.2 (destVec info p)) []

/-- Node-level `ast_equiv` through the snapshot (modules.rs:453-459): resolve
both identities and compare their kind content.  The source `unwrap`s the
lookups (panicking on an identity absent from the snapshot, which never
happens in the pipeline); a missing identity is modelled as not equivalent. -/
def equivNodes (im : List (NodeId × Item)) (a b : NodeId) : Bool :=
  match im.lookup a, im.lookup b with
  | some x, some y => kindEquiv x.node y.node
  | _, _ => false

/-- The `retain` loop of `remove_duplicates` (modules.rs:444-472) on one
group.  `cloned` is the group's entry in the cloned map: an item is dropped
when some distinct identity still in `cloned` is node-equivalent to it, and is
then also erased from `cloned`. -/
def dedupGo (im : List (NodeId × Item)) :
    List NodeId → List NodeId → List NodeId
  | _, [] => []
  | cloned, x :: rest =>
    if cloned.any (fun y => y != x && equivNodes im x y) then
      dedupGo im (cloned.erase x) rest
    else
      x :: dedupGo im cloned rest

/-- `remove_duplicates` (modules.rs:438-474): each destination group is
deduplicated against its own clone; groups at different destinations are
never compared. -/
def removeDuplicates (m : List (NodeId × List NodeId))
    (im : List (NodeId × Item)) : List (NodeId × List NodeId) :=
  m.map (fun p => (p.1, dedupGo im p.2 p.2))

/-- Which group members survive `remove_duplicates`, written from the amended
claim C1: an item survives iff no later item of the same group is
node-equivalent to it (so the last of each equivalence class is kept). -/
def keepLastDup (im : List (NodeId × Item)) : List NodeId → List NodeId
  | [] => []
  | x :: rest =>
    if rest.any (fun y => equivNodes im x y) then keepLastDup im rest
    else x :: keepLastDup im rest

/-- `clean_module_items` (modules.rs:376-435): stage 1 grouping followed by
intra-group deduplication. -/
def cleanModuleItems (info : ModuleInformation) : List (NodeId × List NodeId) :=
  removeDuplicates (stage1 info) info.itemMap

mutual

/-- The insertion pass (modules.rs:114-136): rebuild every module, appending
to its body the planned items of its identity, fetched from the snapshot
(identities missing from the snapshot are skipped, modules.rs:121).  Children
are rebuilt first; the appended items are not themselves revisited. -/

def insItems (plan : List (NodeId × List NodeId)) (im : List (NodeId × Item)) :
    List Item → List Item
  | [] => []
  | i :: is => insItem plan im i :: insItems plan im is

def insItem (plan : List (NodeId × List NodeId)) (im : List (NodeId × Item)) :
    Item → Item
  | .mk idv nm ats vs (.mod ms) =>
    .mk idv nm ats vs
      (.mod
        (insItems plan im ms ++
          match plan.lookup idv with
          | some newIds => newIds.filterMap (fun nid => im.lookup nid)
          | none => []))
  | i => i

end

def insertPass (krate : Crate) (plan : List (NodeId × List NodeId))
    (im : List (NodeId × Item)) : Crate :=
  ⟨insItems plan im krate.items⟩

/-- `extend_crate` (modules.rs:173-209): when the plan holds an entry for the
reserved stdlib identity, fetch the queued items from the snapshot and append
a single public module named `stdlib` at the top level; otherwise return the
crate unchanged.  The source `unwrap`s each snapshot lookup; a missing
identity is modelled as `none` (the panic). -/
def extendCrate (krate : Crate) (newModuleDecls : List (NodeId × List NodeId))
    (info : ModuleInformation) : Option Crate :=
  match newModuleDecls.lookup info.stdlibId with
  | some cStdItems =>
    match cStdItems.mapM (fun i => info.itemMap.lookup i) with
    | some items =>
        some ⟨krate.items ++
          [Item.mk info.stdlibId "stdlib" [] .public (.mod items)]⟩
    | none => none
  | none => some krate

/-- The path-cleanse transformation (modules.rs:70-77): in a path of more
than one segment, retain exactly the segments that are neither the
enclosing-scope keyword `super` nor the current-scope keyword `self`. -/
def cleansePath (segs : List Ident) : List Ident :=
  if segs.length > 1 then
    segs.filter (fun s => !(s == "super" || s == "self"))
  else segs

/-- The path-cleanse behaviour written from the words of claim C6: drop a
leading scope marker of a multi-segment path and leave every other segment
unchanged. -/
def specCleanse (segs : List Ident) : List Ident :=
  match segs with
  | s :: rest =>
      if (s == "super" || s == "self") && segs.length > 1 then rest else segs
  | [] => []

mutual

/-- The cleanse pass applied to every path of the crate (paths occur in `use`
items in this model). -/

def cpItems : List Item → List Item
  | [] => []
  | i :: is => cpItem i :: cpItems is

def cpItem : Item → Item
  | .mk idv nm ats vs (.mod ms) => .mk idv nm ats vs (.mod (cpItems ms))
  | .mk idv nm ats vs (.use segs) => .mk idv nm ats vs (.use (cleansePath segs))
  | i => i

end

def cleansePass (c : Crate) : Crate :=
  ⟨cpItems c.items⟩

mutual

/-- The rename pass (modules.rs:143-150): rewrite every path segment that has
a recorded new name. -/

def renItems (names : List (Ident × Ident)) : List Item → List Item
  | [] => []
  | i :: is => renItem names i :: renItems names is

def renItem (names : List (Ident × Ident)) : Item → Item
  | .mk idv nm ats vs (.mod ms) => .mk idv nm ats vs (.mod (renItems names ms))
  | .mk idv nm ats vs (.use segs) =>
      .mk idv nm ats vs (.use (segs.map (fun s => (names.lookup s).getD s)))
  | i => i

end

def renamePass (c : Crate) (names : List (Ident × Ident)) : Crate :=
  ⟨renItems names c.items⟩

mutual

/-- The generated-container purge (modules.rs:154-161): delete every item
whose attributes carry a source-header marker or standard-library
provenance, recursively. -/

def purgeItems : List Item → List Item
  | [] => []
  | i :: is =>
    if hasSourceHeader i.attrs || isStd i.attrs then purgeItems is
    else purgeMapItem i :: purgeItems is

def purgeMapItem : Item → Item
  | .mk idv nm ats vs k => .mk idv nm ats vs (purgeKind k)

def purgeKind : ItemKind → ItemKind
  | .mod ms => .mod (purgeItems ms)
  | k => k

end

def purgeMarked (c : Crate) : Crate :=
  ⟨purgeItems c.items⟩

/-- `HashSet::insert` on a list. -/
def insertDel (del : List NodeId) (x : NodeId) : List NodeId :=
  if del.contains x then del else del ++ [x]

/-- The retain predicate of the duplicate-foreign-block purge
(modules.rs:220-259) for one foreign item `f` of the foreign block with kind
`piNode` and identity `piId`, threading the `deleted_items` set: scan every
snapshot value; inside a module that contains some item node-equivalent to
the whole block, an item with the foreign item's name kills it, and so does a
different foreign block holding a same-named, not-yet-deleted foreign item
(which also marks the current item deleted). -/
def pdAPred (im : List (NodeId × Item)) (del : List NodeId)
    (piNode : ItemKind) (piId : NodeId) (f : ForeignItem) :
    Bool × List NodeId :=
  im.foldl
    (fun acc kv =>
      match (kv.2).node with
      | .mod mItems =>
        if mItems.any (fun mi => kindEquiv mi.node piNode) then
          mItems.foldl
            (fun acc2 mi =>
              let acc3 :=
                if mi.ident == f.ident then (false, acc2.2) else acc2
              match mi.node with
              | .foreignMod fm2 =>
                if mi.id != piId &&
                    fm2.any
                      (fun f2 => f2.ident == f.ident && !(acc3.2.contains f2.id)) then
                  (false, insertDel acc3.2 f.id)
                else acc3
              | _ => acc3)
            acc
        else acc
      | _ => acc)
    (true, del)

/-- The `retain` over a foreign block's items (modules.rs:220-259), threading
the `deleted_items` set. -/
def retainForeign (im : List (NodeId × Item)) (piNode : ItemKind)
    (piId : NodeId) : List NodeId → List ForeignItem →
    List ForeignItem × List NodeId
  | del, [] => ([], del)
  | del, f :: fs =>
    match pdAPred im del piNode piId f with
    | (keep, del') =>
      match retainForeign im piNode piId del' fs with
      | (fs', del'') => (if keep then f :: fs' else fs', del'')

mutual

/-- The duplicate-foreign-block purge (first fold of `purge_duplicates`,
modules.rs:213-271), applied to every foreign block of the tree, children
first, threading the `deleted_items` set in traversal order. -/
def pdAItems (im : List (NodeId × Item)) :
    List NodeId → List Item → List Item × List NodeId
  | del, [] => ([], del)
  | del, i :: is =>
    match pdAItem im del i with
    | (i', del') =>
      match pdAItems im del' is with
      | (is', del'') => (i' :: is', del'')

def pdAItem (im : List (NodeId × Item)) :
    List NodeId → Item → Item × List NodeId
  | del, .mk idv nm ats vs (.mod ms) =>
    match pdAItems im del ms with
    | (ms', del') => (.mk idv nm ats vs (.mod ms'), del')
  | del, .mk idv nm ats vs (.foreignMod fs) =>
    match retainForeign im (.foreignMod fs) idv del fs with
    | (fs', del') => (.mk idv nm ats vs (.foreignMod fs'), del')
  | del, i => (i, del)

end

/-- The retain predicate of the dead-import purge (modules.rs:289-311): a
`use` item is dropped when some sibling type-alias, function or struct
declaration's identifier occurs among the segments of the use path. -/
def keepUse (cloned : List Item) (i : Item) : Bool :=
  match i.node with
  | .use segs =>
    !(cloned.any (fun c =>
        (match c.node with
         | .ty _ => true
         | .fn _ => true
         | .struct _ => true
         | _ => false) &&
          segs.any (fun s => s == c.ident)))
  | _ => true

mutual

/-- The dead-import purge (second fold of `purge_duplicates`,
modules.rs:284-321): rebuild every module, children first, then drop the
`use` items made redundant by a sibling declaration. -/
def pdBItems : List Item → List Item
  | [] => []
  | i :: is => pdBItem i :: pdBItems is

def pdBItem : Item → Item
  | .mk idv nm ats vs (.mod ms) =>
    match pdBItems ms with
    | ms' => .mk idv nm ats vs (.mod (ms'.filter (keepUse ms')))
  | i => i

end

/-- `purge_duplicates` (modules.rs:211-324): the duplicate-foreign-block
purge followed by the dead-import purge. -/
def purgeDuplicates (krate : Crate) (im : List (NodeId × Item)) : Crate :=
  match pdAItems im [] krate.items with
  | (items1, _) => ⟨pdBItems items1⟩

/-- The passes following `extend_crate` (modules.rs:143-165): rename
recorded identifiers in paths, purge the marked generated containers while
rebuilding the snapshot from the survivors, then purge duplicate foreign
blocks and dead imports against that snapshot. -/
def finalPasses (k3 : Crate) (info : ModuleInformation) : Crate :=
  purgeDuplicates (purgeMarked (renamePass k3 info.newNames))
    (buildItemMap (purgeMarked (renamePass k3 info.newNames)))

/-- The pipeline from the merge plan on (modules.rs:111-165): build the plan,
insert, synthesize the stdlib module (propagating its panic as `none`), and
run the final passes. -/
def transformPlanned (k1 : Crate) (info : ModuleInformation) : Option Crate :=
  match extendCrate (insertPass k1 (cleanModuleItems info) info.itemMap)
      (cleanModuleItems info) info with
  | none => none
  | some k3 => some (finalPasses k3 info)

/-- The pipeline after the path cleanse (modules.rs:79-165): snapshot the
items, run the matching phase, then the planned passes. -/
def transformCore (sess : Session) (sid : NodeId) (k1 : Crate) : Option Crate :=
  transformPlanned k1 (matchPhase k1 sess ⟨buildItemMap k1, [], [], sid⟩)

/-- The full `ReorganizeModules::transform` (modules.rs:67-166), with the
reserved stdlib identity `sid` passed in for `st.next_node_id()`. -/
def transform (sess : Session) (sid : NodeId) (krate : Crate) : Option Crate :=
  transformCore sess sid (cleansePass krate)

theorem lookup_cons' {α β : Type} [BEq α] (k a : α) (b : β) (l : List (α × β)) :
    List.lookup k ((a, b) :: l) = if k == a then some b else List.lookup k l := by
  cases h : k == a <;> simp [List.lookup, h]

theorem beq_symm_false {α : Type} [BEq α] [LawfulBEq α] {k k' : α} (h : (k' == k) = false) : (k == k') = false := by
  simp only [beq_eq_false_iff_ne] at h ⊢
  exact fun hh => h hh.symm

theorem lookup_replace_some {α β : Type} [BEq α] [LawfulBEq α] (m : List (α × β)) (k : α) (v : β)
    (h : (m.lookup k).isSome) :
    (m.map (fun p => if p.1 == k then (k, v) else p)).lookup k = some v := by
  induction m with
  | nil => simp [List.lookup] at h
  | cons p ps ih =>
    obtain ⟨a, b⟩ := p
    rw [lookup_cons'] at h
    by_cases hak : a == k
    · simp only [List.map_cons, if_pos hak]
      rw [lookup_cons', if_pos (by simp)]
    · have hka : (k == a) = false := beq_symm_false (by simpa using hak)
      simp only [List.map_cons, if_neg hak]
      rw [lookup_cons', hka]
      rw [hka] at h
      simpa using ih (by simpa using h)

theorem lookup_replace_other {α β : Type} [BEq α] [LawfulBEq α] (m : List (α × β)) (k k' : α) (v : β)
    (h : (k' == k) = false) :
    (m.map (fun p => if p.1 == k then (k, v) else p)).lookup k' = m.lookup k' := by
  induction m with
  | nil => simp
  | cons p ps ih =>
    obtain ⟨a, b⟩ := p
    by_cases hak : a == k
    · have hk'a : (k' == a) = false := by
        have := eq_of_beq hak
        rw [this]; exact h
      simp only [List.map_cons, if_pos hak]
      rw [lookup_cons', lookup_cons', hk'a, h]
      simpa using ih
    · simp only [List.map_cons, if_neg hak]
      rw [lookup_cons', lookup_cons']
      by_cases hk'a : k' == a
      · simp [hk'a]
      · simp only [Bool.not_eq_true] at hk'a
        rw [hk'a]
        simpa using ih

theorem lookup_append_one {α β : Type} [BEq α] (m : List (α × β)) (k k' : α) (v : β) :
    (m ++ [(k, v)]).lookup k' =
      match m.lookup k' with
      | some b => some b
      | none => if k' == k then some v else none := by
  induction m with
  | nil =>
    rw [List.nil_append, lookup_cons']
    cases hk : k' == k <;> simp [List.lookup, hk]
  | cons p ps ih =>
    obtain ⟨a, b⟩ := p
    rw [List.cons_append, lookup_cons', lookup_cons']
    by_cases hk'a : k' == a
    · simp [hk'a]
    · simp only [Bool.not_eq_true] at hk'a
      rw [hk'a, ih]
      simp

theorem lookup_alInsert_self {α β : Type} [BEq α] [LawfulBEq α] (m : List (α × β)) (k : α) (v : β) :
    (alInsert m k v).lookup k = some v := by
  unfold alInsert
  by_cases h : (m.lookup k).isSome
  · simpa [h] using lookup_replace_some m k v h
  · rw [if_neg h, lookup_append_one]
    cases hm : m.lookup k with
    | some b => simp [hm] at h
    | none => simp

theorem lookup_alInsert_ne {α β : Type} [BEq α] [LawfulBEq α] (m : List (α × β)) (k k' : α) (v : β)
    (h : (k' == k) = false) :
    (alInsert m k v).lookup k' = m.lookup k' := by
  unfold alInsert
  by_cases hs : (m.lookup k).isSome
  · simpa [hs] using lookup_replace_other m k k' v h
  · rw [if_neg hs, lookup_append_one]
    cases hm : m.lookup k' with
    | some b => simp
    | none => simp [h]

theorem lookup_map_vals {α β : Type} [BEq α] (f : β → β) (m : List (α × β)) (k : α) :
    ((m.map (fun p => (p.1, f p.2))).lookup k) = (m.lookup k).map f := by
  induction m with
  | nil => simp
  | cons p ps ih =>
    obtain ⟨a, b⟩ := p
    simp only [List.map_cons]
    rw [lookup_cons', lookup_cons']
    by_cases hk : k == a
    · simp [hk]
    · simp only [Bool.not_eq_true] at hk
      rw [hk, ih]
      simp

theorem lookup_appendUpd_some (m : List (NodeId × List NodeId)) (k : NodeId)
    (v g : List NodeId) (h : m.lookup k = some g) :
    (m.map (fun p => if p.1 == k then (p.1, p.2 ++ v) else p)).lookup k =
      some (g ++ v) := by
  induction m with
  | nil => simp at h
  | cons p ps ih =>
    obtain ⟨a, b⟩ := p
    by_cases hak : a == k
    · have hka : (k == a) = true := by
        have := eq_of_beq hak
        simp [this]
      simp only [List.map_cons, if_pos hak]
      rw [lookup_cons', if_pos hka] at h
      rw [lookup_cons', if_pos hka]
      simp at h
      simp [h]
    · have hka : (k == a) = false := beq_symm_false (by simpa using hak)
      simp only [List.map_cons, if_neg hak]
      rw [lookup_cons', hka] at h
      rw [lookup_cons', hka]
      simp only [if_neg (by simp : ¬((false : Bool) = true))] at h ⊢
      exact ih h

theorem lookup_appendUpd_other (m : List (NodeId × List NodeId)) (k k' : NodeId)
    (v : List NodeId) (h : (k' == k) = false) :
    (m.map (fun p => if p.1 == k then (p.1, p.2 ++ v) else p)).lookup k' =
      m.lookup k' := by
  induction m with
  | nil => simp
  | cons p ps ih =>
    obtain ⟨a, b⟩ := p
    by_cases hak : a == k
    · have hk'a : (k' == a) = false := by
        have := eq_of_beq hak
        rw [this]; exact h
      simp only [List.map_cons, if_pos hak]
      rw [lookup_cons', lookup_cons', hk'a]
      simpa using ih
    · simp only [List.map_cons, if_neg hak]
      rw [lookup_cons', lookup_cons']
      by_cases hk'a : k' == a
      · simp [hk'a]
      · simp only [Bool.not_eq_true] at hk'a
        rw [hk'a]
        simpa using ih

theorem lookup_appendAt_self (m : List (NodeId × List NodeId)) (k : NodeId)
    (v : List NodeId) :
    (appendAt m k v).lookup k = some ((m.lookup k).getD [] ++ v) := by
  unfold appendAt
  cases hm : m.lookup k with
  | some g =>
    simp only [hm, Option.isSome_some, if_true]
    simpa using lookup_appendUpd_some m k v g hm
  | none =>
    simp only [hm, Option.isSome_none, Bool.false_eq_true, if_false]
    rw [lookup_append_one, hm]
    simp

theorem lookup_appendAt_ne (m : List (NodeId × List NodeId)) (k k' : NodeId)
    (v : List NodeId) (h : (k' == k) = false) :
    (appendAt m k v).lookup k' = m.lookup k' := by
  unfold appendAt
  by_cases hs : (m.lookup k).isSome
  · simpa [hs] using lookup_appendUpd_other m k k' v h
  · rw [if_neg hs, lookup_append_one]
    cases hm : m.lookup k' with
    | some b => simp
    | none => simp [h]

/-- Claim C3, counterexample.  The claim says `hasSourceHeader` is true iff
some nested token is literally the identifier `source_header`.  On an
attribute whose only nested identifier token is `a_source_header_b`, the
source predicate (a substring test, modules.rs:501) returns `true` although
no nested token literally names the marker, so the claim as stated is false. -/
theorem c3_counterexample :
    hasSourceHeader [⟨[.delimited [.identTok "a_source_header_b"]]⟩] = true ∧
    hasSourceHeaderLiteral [⟨[.delimited [.identTok "a_source_header_b"]]⟩] = false := by
  exact ⟨by decide, by decide⟩

/-- Claim C3, amended: `hasSourceHeader` returns true iff some token nested
anywhere in the attribute set's token trees, when interpreted as an
identifier, contains `source_header` as a substring.  The predicate is a
total Lean function of the attribute set, hence side-effect-free. -/
theorem c3_source_header_substring (attrs : List Attribute) :
    hasSourceHeader attrs = true ↔
      ∃ s ∈ attrIdents attrs, strContains s "source_header" = true := by
  rw [hasSourceHeader_eq_any]
  simp [List.any_eq_true]

/-- Claim C6, counterexample.  The claim says the path cleanse drops only a
leading scope marker and leaves every other segment unchanged.  On the path
`a::super::b` (no leading marker, an interior one), the source pass
(modules.rs:70-77, a `retain` over all segments) removes the interior
`super`, while the claim predicts the path is unchanged. -/
theorem c6_counterexample :
    cleansePath ["a", "super", "b"] = ["a", "b"] ∧
    specCleanse ["a", "super", "b"] = ["a", "super", "b"] ∧
    (["a", "b"] : List Ident) ≠ ["a", "super", "b"] := by
  exact ⟨by decide, by decide, by decide⟩

/-- Claim C6, amended: in every reference path with more than one segment the
pass drops every `self` and every `super` segment, wherever it occurs,
keeping the remaining segments in order; paths of at most one segment are
left unchanged. -/
theorem c6_cleanse_removes_all_scope_markers (segs : List Ident) :
    (segs.length ≤ 1 → cleansePath segs = segs) ∧
    (segs.length > 1 →
      List.Sublist (cleansePath segs) segs ∧
      ∀ s, s ∈ cleansePath segs ↔ s ∈ segs ∧ s ≠ "super" ∧ s ≠ "self") := by
  constructor
  · intro h
    unfold cleansePath
    rw [if_neg (by omega)]
  · intro h
    unfold cleansePath
    rw [if_pos h]
    constructor
    · exact List.filter_sublist segs
    · intro s
      rw [List.mem_filter]
      constructor
      · rintro ⟨hs, hb⟩
        simp only [Bool.not_eq_true', Bool.or_eq_false_iff,
          beq_eq_false_iff_ne] at hb
        exact ⟨hs, hb.1, hb.2⟩
      · rintro ⟨hs, hx, hy⟩
        refine ⟨hs, ?_⟩
        simp [hx, hy]

/-- Claim C6 witness: the amended theorem applied to the path
`a::super::b`. -/
theorem c6_witness :
    List.Sublist (cleansePath ["a", "super", "b"]) ["a", "super", "b"] ∧
    (("super" : Ident) ∈ cleansePath ["a", "super", "b"] ↔
      ("super" : Ident) ∈ ["a", "super", "b"] ∧
        ("super" : Ident) ≠ "super" ∧ ("super" : Ident) ≠ "self") :=
  ⟨((c6_cleanse_removes_all_scope_markers ["a", "super", "b"]).2 (by decide)).1,
    ((c6_cleanse_removes_all_scope_markers ["a", "super", "b"]).2 (by decide)).2 "super"⟩

/-- Claim C8: when the insertion plan holds an entry for the reserved stdlib
identity, `extend_crate` appends exactly one new module at the top level,
named `stdlib`, publicly visible, whose body is the queued items fetched by
identity from the snapshot; when the plan holds no such entry the crate is
returned unchanged.  (The `if the insertion plan queues items` of the claim
is read as `the plan holds an entry for the stdlib identity`, which is the
test the source performs at modules.rs:179.) -/
theorem c8_extend_crate_synthesizes_stdlib (krate : Crate)
    (plan : List (NodeId × List NodeId)) (info : ModuleInformation)
    (ids : List NodeId) (its : List Item) :
    (plan.lookup info.stdlibId = some ids →
      ids.mapM (fun i => info.itemMap.lookup i) = some its →
      extendCrate krate plan info =
        some ⟨krate.items ++
          [Item.mk info.stdlibId "stdlib" [] .public (.mod its)]⟩) ∧
    (plan.lookup info.stdlibId = none →
      extendCrate krate plan info = some krate) := by
  constructor
  · intro h1 h2
    unfold extendCrate
    rw [h1]
    simp only [h2]
  · intro h1
    unfold extendCrate
    rw [h1]

/-- Claim C8 witness: a one-item plan for the stdlib identity yields exactly
the appended public `stdlib` module. -/
theorem c8_witness :
    extendCrate ⟨[]⟩ [(100, [1])]
        ⟨[(1, Item.mk 1 "s1" [] .inherited (.struct 7))], [], [], 100⟩ =
      some ⟨[Item.mk 100 "stdlib" [] .public
        (.mod [Item.mk 1 "s1" [] .inherited (.struct 7)])]⟩ := by
  exact (c8_extend_crate_synthesizes_stdlib ⟨[]⟩ [(100, [1])]
    ⟨[(1, Item.mk 1 "s1" [] .inherited (.struct 7))], [], [], 100⟩ [1]
    [Item.mk 1 "s1" [] .inherited (.struct 7)]).1 rfl rfl

theorem purgeItems_append (a b : List Item) :
    purgeItems (a ++ b) = purgeItems a ++ purgeItems b := by
  induction a with
  | nil => simp [purgeItems]
  | cons i is ih =>
    by_cases h1 : hasSourceHeader i.attrs = true
    · simp [purgeItems, h1, ih]
    · by_cases h2 : isStd i.attrs = true
      · simp [purgeItems, h1, h2, ih]
      · simp [purgeItems, h1, h2, ih]

/-- Claim C10: the synthesized stdlib module carries an empty attribute set,
the empty attribute set satisfies neither marker predicate, and therefore the
generated-container purge that follows synthesis keeps the synthesized module
(at most purging inside its body). -/
theorem c10_stdlib_survives_purge :
    hasSourceHeader [] = false ∧ isStd [] = false ∧
    ∀ (krate : Crate) (plan : List (NodeId × List NodeId))
      (info : ModuleInformation) (ids : List NodeId) (its : List Item),
      plan.lookup info.stdlibId = some ids →
      ids.mapM (fun i => info.itemMap.lookup i) = some its →
      ∃ k2, extendCrate krate plan info = some k2 ∧
        (purgeMarked k2).items =
          purgeItems krate.items ++
            [Item.mk info.stdlibId "stdlib" [] .public (.mod (purgeItems its))] := by
  refine ⟨rfl, rfl, ?_⟩
  intro krate plan info ids its h1 h2
  refine ⟨⟨krate.items ++
      [Item.mk info.stdlibId "stdlib" [] .public (.mod its)]⟩, ?_, ?_⟩
  · unfold extendCrate
    rw [h1]
    simp only [h2]
  · show purgeItems (krate.items ++
        [Item.mk info.stdlibId "stdlib" [] .public (.mod its)]) = _
    rw [purgeItems_append]
    congr 1

/-- Claim C10 witness: the purge of a concrete extended crate keeps the
synthesized stdlib module. -/
theorem c10_witness :
    ∃ k2, extendCrate ⟨[]⟩ [(100, [1])]
        ⟨[(1, Item.mk 1 "s1" [] .inherited (.struct 7))], [], [], 100⟩ = some k2 ∧
      (purgeMarked k2).items =
        purgeItems (⟨[]⟩ : Crate).items ++
          [Item.mk 100 "stdlib" [] .public
            (.mod (purgeItems [Item.mk 1 "s1" [] .inherited (.struct 7)]))] := by
  exact c10_stdlib_survives_purge.2.2 ⟨[]⟩ [(100, [1])]
    ⟨[(1, Item.mk 1 "s1" [] .inherited (.struct 7))], [], [], 100⟩ [1]
    [Item.mk 1 "s1" [] .inherited (.struct 7)] rfl rfl

theorem beqComm {α : Type} [BEq α] [LawfulBEq α] (a b : α) : (a == b) = (b == a) := by
  by_cases h : a = b
  · simp [h]
  · rw [beq_eq_false_iff_ne.mpr h, beq_eq_false_iff_ne.mpr (Ne.symm h)]

mutual

theorem ttBeq_symm : ∀ (a b : TokenTree), ttBeq a b = ttBeq b a
  | .identTok x, .identTok y => beqComm x y
  | .strLitTok x, .strLitTok y => beqComm x y
  | .otherTok, .otherTok => rfl
  | .delimited xs, .delimited ys => ttsBeq_symm xs ys
  | .identTok _, .strLitTok _ => rfl
  | .identTok _, .otherTok => rfl
  | .identTok _, .delimited _ => rfl
  | .strLitTok _, .identTok _ => rfl
  | .strLitTok _, .otherTok => rfl
  | .strLitTok _, .delimited _ => rfl
  | .otherTok, .identTok _ => rfl
  | .otherTok, .strLitTok _ => rfl
  | .otherTok, .delimited _ => rfl
  | .delimited _, .identTok _ => rfl
  | .delimited _, .strLitTok _ => rfl
  | .delimited _, .otherTok => rfl

theorem ttsBeq_symm : ∀ (as bs : List TokenTree), ttsBeq as bs = ttsBeq bs as
  | [], [] => rfl
  | [], _ :: _ => rfl
  | _ :: _, [] => rfl
  | a :: as, b :: bs => by
      simp only [ttsBeq]
      rw [ttBeq_symm a b, ttsBeq_symm as bs]

end

theorem attrBeq_symm (a b : Attribute) : attrBeq a b = attrBeq b a :=
  ttsBeq_symm a.tokens b.tokens

theorem attrsBeq_symm : ∀ (as bs : List Attribute), attrsBeq as bs = attrsBeq bs as
  | [], [] => rfl
  | [], _ :: _ => rfl
  | _ :: _, [] => rfl
  | a :: as, b :: bs => by
      simp only [attrsBeq]
      rw [attrBeq_symm a b, attrsBeq_symm as bs]

theorem foreignEquiv_symm (a b : ForeignItem) : foreignEquiv a b = foreignEquiv b a := by
  simp only [foreignEquiv]
  rw [beqComm a.ident b.ident, beqComm a.content b.content]

theorem foreignListEquiv_symm :
    ∀ (as bs : List ForeignItem), foreignListEquiv as bs = foreignListEquiv bs as
  | [], [] => rfl
  | [], _ :: _ => rfl
  | _ :: _, [] => rfl
  | a :: as, b :: bs => by
      simp only [foreignListEquiv]
      rw [foreignEquiv_symm a b, foreignListEquiv_symm as bs]

mutual

theorem itemEquiv_symm : ∀ (a b : Item), itemEquiv a b = itemEquiv b a
  | .mk _ n1 a1 v1 k1, .mk _ n2 a2 v2 k2 => by
      simp only [itemEquiv]
      rw [beqComm n1 n2, attrsBeq_symm a1 a2, beqComm v1 v2, kindEquiv_symm k1 k2]

theorem kindEquiv_symm : ∀ (a b : ItemKind), kindEquiv a b = kindEquiv b a
  | .mod x, .mod y => by
      simp only [kindEquiv]
      rw [itemListEquiv_symm x y]
  | .foreignMod x, .foreignMod y => by
      simp only [kindEquiv]
      rw [foreignListEquiv_symm x y]
  | .use x, .use y => beqComm x y
  | .struct x, .struct y => beqComm x y
  | .fn x, .fn y => beqComm x y
  | .ty x, .ty y => beqComm x y
  | .other x, .other y => beqComm x y
  | .mod _, .foreignMod _ => rfl
  | .mod _, .use _ => rfl
  | .mod _, .struct _ => rfl
  | .mod _, .fn _ => rfl
  | .mod _, .ty _ => rfl
  | .mod _, .other _ => rfl
  | .foreignMod _, .mod _ => rfl
  | .foreignMod _, .use _ => rfl
  | .foreignMod _, .struct _ => rfl
  | .foreignMod _, .fn _ => rfl
  | .foreignMod _, .ty _ => rfl
  | .foreignMod _, .other _ => rfl
  | .use _, .mod _ => rfl
  | .use _, .foreignMod _ => rfl
  | .use _, .struct _ => rfl
  | .use _, .fn _ => rfl
  | .use _, .ty _ => rfl
  | .use _, .other _ => rfl
  | .struct _, .mod _ => rfl
  | .struct _, .foreignMod _ => rfl
  | .struct _, .use _ => rfl
  | .struct _, .fn _ => rfl
  | .struct _, .ty _ => rfl
  | .struct _, .other _ => rfl
  | .fn _, .mod _ => rfl
  | .fn _, .foreignMod _ => rfl
  | .fn _, .use _ => rfl
  | .fn _, .struct _ => rfl
  | .fn _, .ty _ => rfl
  | .fn _, .other _ => rfl
  | .ty _, .mod _ => rfl
  | .ty _, .foreignMod _ => rfl
  | .ty _, .use _ => rfl
  | .ty _, .struct _ => rfl
  | .ty _, .fn _ => rfl
  | .ty _, .other _ => rfl
  | .other _, .mod _ => rfl
  | .other _, .foreignMod _ => rfl
  | .other _, .use _ => rfl
  | .other _, .struct _ => rfl
  | .other _, .fn _ => rfl
  | .other _, .ty _ => rfl

theorem itemListEquiv_symm : ∀ (as bs : List Item), itemListEquiv as bs = itemListEquiv bs as
  | [], [] => rfl
  | [], _ :: _ => rfl
  | _ :: _, [] => rfl
  | a :: as, b :: bs => by
      simp only [itemListEquiv]
      rw [itemEquiv_symm a b, itemListEquiv_symm as bs]

end

theorem equivNodes_symm (im : List (NodeId × Item)) (a b : NodeId) :
    equivNodes im a b = equivNodes im b a := by
  unfold equivNodes
  cases im.lookup a with
  | none =>
    cases im.lookup b with
    | none => rfl
    | some y => rfl
  | some x =>
    cases im.lookup b with
    | none => rfl
    | some y => exact kindEquiv_symm x.node y.node

theorem dedupGo_cons (im : List (NodeId × Item)) (c : List NodeId)
    (x : NodeId) (rest : List NodeId) :
    dedupGo im c (x :: rest) =
      if c.any (fun y => y != x && equivNodes im x y) then
        dedupGo im (c.erase x) rest
      else x :: dedupGo im c rest := rfl

theorem keepLastDup_cons (im : List (NodeId × Item)) (x : NodeId)
    (rest : List NodeId) :
    keepLastDup im (x :: rest) =
      if rest.any (fun y => equivNodes im x y) then keepLastDup im rest
      else x :: keepLastDup im rest := rfl

theorem dedupGo_subset (im : List (NodeId × Item)) :
    ∀ (l c : List NodeId) (x : NodeId), x ∈ dedupGo im c l → x ∈ l := by
  intro l
  induction l with
  | nil => intro c x hx; simp [dedupGo] at hx
  | cons y rest ih =>
    intro c x hx
    rw [dedupGo_cons] at hx
    by_cases h : c.any (fun z => z != y && equivNodes im y z) = true
    · rw [if_pos h] at hx
      exact List.mem_cons_of_mem y (ih (c.erase y) x hx)
    · rw [if_neg h] at hx
      rcases List.mem_cons.mp hx with h1 | h1
      · exact h1 ▸ List.mem_cons_self y rest
      · exact List.mem_cons_of_mem y (ih c x h1)

theorem dedupGo_eq_keepLast (im : List (NodeId × Item)) :
    ∀ (l c : List NodeId), l.Nodup → c.Nodup → List.Sublist l c →
      (∀ y ∈ c, y ∉ l → ∀ z ∈ l, equivNodes im y z = false) →
      dedupGo im c l = keepLastDup im l := by
  intro l
  induction l with
  | nil => intro c _ _ _ _; rfl
  | cons x rest ih =>
    intro c hndl hndc hsub hP
    have hx_notin_rest : x ∉ rest := (List.nodup_cons.mp hndl).1
    have hnd_rest : rest.Nodup := (List.nodup_cons.mp hndl).2
    have hrest_sub_c : ∀ z ∈ rest, z ∈ c :=
      fun z hz => hsub.subset (List.mem_cons_of_mem x hz)
    have hcond : (c.any (fun y => y != x && equivNodes im x y)) =
        (rest.any (fun y => equivNodes im x y)) := by
      cases hr : rest.any (fun y => equivNodes im x y) with
      | true =>
        obtain ⟨y, hy, hyeq⟩ := List.any_eq_true.mp hr
        apply List.any_eq_true.mpr
        refine ⟨y, hrest_sub_c y hy, ?_⟩
        have hyx : y ≠ x := fun hh => hx_notin_rest (hh ▸ hy)
        simp [hyeq, bne_iff_ne, hyx]
      | false =>
        cases ha : c.any (fun y => y != x && equivNodes im x y) with
        | false => rfl
        | true =>
          obtain ⟨y, hyc, hyb⟩ := List.any_eq_true.mp ha
          have hsplit : (y != x) = true ∧ equivNodes im x y = true := by
            simpa using hyb
          have hyx : y ≠ x := by simpa [bne_iff_ne] using hsplit.1
          have hyeq : equivNodes im x y = true := hsplit.2
          by_cases hyl : y ∈ x :: rest
          · rcases List.mem_cons.mp hyl with h1 | h1
            · exact absurd h1 hyx
            · have := List.any_eq_true.mpr ⟨y, h1, hyeq⟩
              rw [hr] at this
              exact absurd this (by simp)
          · have hfalse := hP y hyc hyl x (List.mem_cons_self x rest)
            rw [equivNodes_symm im x y, hfalse] at hyeq
            exact absurd hyeq (by simp)
    rw [dedupGo_cons, hcond, keepLastDup_cons]
    by_cases hr : rest.any (fun y => equivNodes im x y) = true
    · rw [if_pos hr, if_pos hr]
      apply ih (c.erase x) hnd_rest (hndc.erase x)
      · have h1 := hsub.erase x
        rw [List.erase_cons_head x rest] at h1
        exact h1
      · intro y hy hynotin z hz
        have hyc : y ∈ c := List.mem_of_mem_erase hy
        by_cases hyx : y = x
        · subst hyx
          exact absurd ((hndc.mem_erase_iff).mp hy).1 (by simp)
        · have hynotin' : y ∉ x :: rest := by
            intro hh
            rcases List.mem_cons.mp hh with h1 | h1
            · exact hyx h1
            · exact hynotin h1
          exact hP y hyc hynotin' z (List.mem_cons_of_mem x hz)
    · rw [if_neg hr, if_neg hr]
      congr 1
      apply ih c hnd_rest hndc ((List.sublist_cons_self x rest).trans hsub)
      intro y hyc hynotin z hz
      by_cases hyx : y = x
      · subst hyx
        cases he : equivNodes im y z with
        | false => rfl
        | true =>
          have hany : rest.any (fun w => equivNodes im y w) = true :=
            List.any_eq_true.mpr ⟨z, hz, he⟩
          exact absurd hany hr
      · have hynotin' : y ∉ x :: rest := by
          intro hh
          rcases List.mem_cons.mp hh with h1 | h1
          · exact hyx h1
          · exact hynotin h1
        exact hP y hyc hynotin' z (List.mem_cons_of_mem x hz)

/-- Claim C1, counterexample.  A destination group holding two distinct,
structurally equivalent items (`1` before `2` in encounter order): the claim
says the earlier item `1` is kept and `2` dropped, but `remove_duplicates`
(modules.rs:444-472) erases the currently examined item from the cloned list
when it finds a duplicate, so `1` is dropped and the later `2` survives. -/
theorem c1_counterexample :
    itemEquiv (Item.mk 1 "s" [] .inherited (.struct 7))
        (Item.mk 2 "s" [] .inherited (.struct 7)) = true ∧
    removeDuplicates [(10, [1, 2])]
        [(1, Item.mk 1 "s" [] .inherited (.struct 7)),
         (2, Item.mk 2 "s" [] .inherited (.struct 7))] = [(10, [2])] ∧
    ([(10, [2])] : List (NodeId × List NodeId)) ≠ [(10, [1])] := by
  exact ⟨by decide, by decide, by decide⟩

/-- Claim C1, amended: within each destination group (groups at different
destinations are deduplicated independently, each against its own clone),
among structurally equivalent distinct items the LAST one in the group's
encounter order is kept and every earlier one is dropped: the survivors are
exactly the items with no equivalent item occurring later in the group. -/
theorem c1_remove_duplicates_keeps_last (m : List (NodeId × List NodeId))
    (im : List (NodeId × Item)) (d : NodeId) (g : List NodeId)
    (hm : m.lookup d = some g) (hnd : g.Nodup) :
    (removeDuplicates m im).lookup d = some (keepLastDup im g) := by
  unfold removeDuplicates
  rw [lookup_map_vals (fun v => dedupGo im v v) m d, hm]
  simp only [Option.map_some']
  congr 1
  exact dedupGo_eq_keepLast im g g hnd hnd (List.Sublist.refl g)
    (fun y hy hyn _ _ => absurd hy hyn)

/-- Claim C1 witness: the amended theorem applied to the two-item group of
the counterexample input. -/
theorem c1_witness :
    (removeDuplicates [(10, [1, 2])]
        [(1, Item.mk 1 "s" [] .inherited (.struct 7)),
         (2, Item.mk 2 "s" [] .inherited (.struct 7))]).lookup 10 =
      some (keepLastDup
        [(1, Item.mk 1 "s" [] .inherited (.struct 7)),
         (2, Item.mk 2 "s" [] .inherited (.struct 7))] [1, 2]) := by
  exact c1_remove_duplicates_keeps_last [(10, [1, 2])]
    [(1, Item.mk 1 "s" [] .inherited (.struct 7)),
     (2, Item.mk 2 "s" [] .inherited (.struct 7))] 10 [1, 2] rfl (by decide)

/-- Claim C4: a container classified standard-library (its attributes hold a
nested string literal containing one of the recognized substrings
`/usr/include`, `stddef`, `vararg`) is routed by `match_modules`
(modules.rs:343-346) to the reserved `stdlib_id` with a rename of its
identifier to the literal `stdlib`; the conclusion holds for every crate, so
such a container is never given a name-matched destination (that branch is
the untaken `else`). -/
theorem c4_std_routing :
    (∀ ats : List Attribute, isStd ats = true ↔
      ∃ s ∈ attrStrLits ats,
        (strContains s "/usr/include" || strContains s "stddef" ||
          strContains s "vararg") = true) ∧
    ∀ (krate : Crate) (sess : Session) (oldModItemId oldModId : NodeId)
      (info : ModuleInformation) (oldMod : Item),
      info.itemMap.lookup oldModId = some oldMod →
      isStd oldMod.attrs = true →
      (matchModules krate sess oldModItemId oldModId
            info).declDestinationMod.lookup oldModItemId = some info.stdlibId ∧
        (matchModules krate sess oldModItemId oldModId
            info).newNames.lookup oldMod.ident = some "stdlib" := by
  constructor
  · intro ats
    rw [isStd_eq_any]
    simp [List.any_eq_true]
  · intro krate sess oldModItemId oldModId info oldMod h1 h2
    unfold matchModules
    rw [h1]
    simp only [h2, if_true]
    exact ⟨lookup_alInsert_self _ _ _, lookup_alInsert_self _ _ _⟩

/-- Claim C4 witness: a module carrying a `/usr/include` provenance literal
is routed to the reserved identity 100 and renamed to `stdlib`, in a crate
that even contains a name-matching candidate module. -/
theorem c4_witness :
    (matchModules ⟨[Item.mk 5 "stdio" [] .inherited (.mod [])]⟩ ⟨"src/lib.rs"⟩ 7 6
        ⟨[(6, Item.mk 6 "stdio_h" [⟨[.strLitTok "/usr/include/stdio.h"]⟩]
            .inherited (.mod []))], [], [], 100⟩).declDestinationMod.lookup 7 =
      some 100 ∧
    (matchModules ⟨[Item.mk 5 "stdio" [] .inherited (.mod [])]⟩ ⟨"src/lib.rs"⟩ 7 6
        ⟨[(6, Item.mk 6 "stdio_h" [⟨[.strLitTok "/usr/include/stdio.h"]⟩]
            .inherited (.mod []))], [], [], 100⟩).newNames.lookup "stdio_h" =
      some "stdlib" := by
  exact (c4_std_routing.2 ⟨[Item.mk 5 "stdio" [] .inherited (.mod [])]⟩
    ⟨"src/lib.rs"⟩ 7 6
    ⟨[(6, Item.mk 6 "stdio_h" [⟨[.strLitTok "/usr/include/stdio.h"]⟩]
        .inherited (.mod []))], [], [], 100⟩
    (Item.mk 6 "stdio_h" [⟨[.strLitTok "/usr/include/stdio.h"]⟩]
        .inherited (.mod [])) rfl (by decide))

/-- The last item of the list satisfying the predicate (the candidate whose
recording survives the overwrite-on-match scan). -/
def lastMatchOpt (p : Item → Bool) : List Item → Option Item
  | [] => none
  | i :: is =>
    match lastMatchOpt p is with
    | some m => some m
    | none => if p i then some i else none

theorem matchScanStep_matched (sess : Session) (oldMod : Item)
    (oldModItemId : NodeId) (inf : ModuleInformation) (i : Item)
    (hc : candMatches sess oldMod.ident i = true) :
    matchScanStep sess oldMod oldModItemId inf i =
      { inf with
          declDestinationMod :=
            alInsert inf.declDestinationMod oldModItemId i.id,
          newNames :=
            alInsert inf.newNames oldMod.ident (compareName sess i.ident) } := by
  rcases i with ⟨idv, nm, ats, vs, k⟩
  cases k <;>
    simp_all [candMatches, matchScanStep, Item.node, Item.attrs, Item.ident]

theorem matchScanStep_unmatched (sess : Session) (oldMod : Item)
    (oldModItemId : NodeId) (inf : ModuleInformation) (i : Item)
    (hc : candMatches sess oldMod.ident i = false) :
    matchScanStep sess oldMod oldModItemId inf i = inf := by
  rcases i with ⟨idv, nm, ats, vs, k⟩
  cases k <;>
    simp_all [candMatches, matchScanStep, Item.node, Item.attrs, Item.ident]

theorem matchFold_lastMatch (sess : Session) (oldMod : Item)
    (oldModItemId : NodeId) :
    ∀ (l : List Item) (inf : ModuleInformation),
      ((l.foldl (matchScanStep sess oldMod oldModItemId)
            inf).declDestinationMod.lookup oldModItemId,
        (l.foldl (matchScanStep sess oldMod oldModItemId)
            inf).newNames.lookup oldMod.ident) =
        (match lastMatchOpt (candMatches sess oldMod.ident) l with
         | some m => (some m.id, some (compareName sess m.ident))
         | none =>
            (inf.declDestinationMod.lookup oldModItemId,
              inf.newNames.lookup oldMod.ident)) := by
  intro l
  induction l with
  | nil => intro inf; rfl
  | cons i l ih =>
    intro inf
    rw [List.foldl_cons]
    have hstep : lastMatchOpt (candMatches sess oldMod.ident) (i :: l) =
        match lastMatchOpt (candMatches sess oldMod.ident) l with
        | some m => some m
        | none =>
          if candMatches sess oldMod.ident i then some i else none := rfl
    rw [hstep]
    cases hlm : lastMatchOpt (candMatches sess oldMod.ident) l with
    | some m =>
      have h2 := ih (matchScanStep sess oldMod oldModItemId inf i)
      rw [hlm] at h2
      simpa using h2
    | none =>
      have h2 := ih (matchScanStep sess oldMod oldModItemId inf i)
      rw [hlm] at h2
      by_cases hp : candMatches sess oldMod.ident i = true
      · rw [matchScanStep_matched sess oldMod oldModItemId inf i hp] at h2 ⊢
        simp only [hp, if_true]
        rw [h2]
        simp [lookup_alInsert_self]
      · have hpf : candMatches sess oldMod.ident i = false := by simpa using hp
        rw [matchScanStep_unmatched sess oldMod oldModItemId inf i hpf] at h2 ⊢
        simpa [hpf] using h2

/-- Claim C7: for a generated (source-header) non-standard-library container,
when the candidate scan has at least one match, the recorded destination and
rename are those of the LAST matching candidate in scan order: each match
overwrites the single map entries (`alInsert`) keyed by the moved item and by
the old module's identifier, rather than accumulating. -/
theorem c7_last_match_wins (krate : Crate) (sess : Session)
    (oldModItemId oldModId : NodeId) (info : ModuleInformation)
    (oldMod m : Item)
    (h1 : info.itemMap.lookup oldModId = some oldMod)
    (h2 : isStd oldMod.attrs = false)
    (h3 : hasSourceHeader oldMod.attrs = true)
    (h4 : lastMatchOpt (candMatches sess oldMod.ident) (allItems krate) =
      some m) :
    (matchModules krate sess oldModItemId oldModId
        info).declDestinationMod.lookup oldModItemId = some m.id ∧
    (matchModules krate sess oldModItemId oldModId
        info).newNames.lookup oldMod.ident = some (compareName sess m.ident) := by
  unfold matchModules
  rw [h1]
  simp only [h2, h3, Bool.false_eq_true, if_false, if_true]
  have hfold := matchFold_lastMatch sess oldMod oldModItemId (allItems krate) info
  rw [h4] at hfold
  exact ⟨(Prod.ext_iff.mp hfold).1, (Prod.ext_iff.mp hfold).2⟩

/-- Claim C7 witness: with candidate modules `foo` and `foo_bar` both
matching the generated module `foo_bar_h`, the later candidate (identity 2)
wins both recorded entries. -/
theorem c7_witness :
    (matchModules
        ⟨[Item.mk 1 "foo" [] .inherited (.mod []),
          Item.mk 2 "foo_bar" [] .inherited (.mod []),
          Item.mk 6 "foo_bar_h" [⟨[.identTok "source_header"]⟩] .inherited
            (.mod [Item.mk 7 "x" [] .inherited (.struct 0)])]⟩
        ⟨"src/lib.rs"⟩ 7 6
        ⟨buildItemMap ⟨[Item.mk 1 "foo" [] .inherited (.mod []),
          Item.mk 2 "foo_bar" [] .inherited (.mod []),
          Item.mk 6 "foo_bar_h" [⟨[.identTok "source_header"]⟩] .inherited
            (.mod [Item.mk 7 "x" [] .inherited (.struct 0)])]⟩, [], [],
          100⟩).declDestinationMod.lookup 7 = some 2 ∧
    (matchModules
        ⟨[Item.mk 1 "foo" [] .inherited (.mod []),
          Item.mk 2 "foo_bar" [] .inherited (.mod []),
          Item.mk 6 "foo_bar_h" [⟨[.identTok "source_header"]⟩] .inherited
            (.mod [Item.mk 7 "x" [] .inherited (.struct 0)])]⟩
        ⟨"src/lib.rs"⟩ 7 6
        ⟨buildItemMap ⟨[Item.mk 1 "foo" [] .inherited (.mod []),
          Item.mk 2 "foo_bar" [] .inherited (.mod []),
          Item.mk 6 "foo_bar_h" [⟨[.identTok "source_header"]⟩] .inherited
            (.mod [Item.mk 7 "x" [] .inherited (.struct 0)])]⟩, [], [],
          100⟩).newNames.lookup "foo_bar_h" =
      some (compareName ⟨"src/lib.rs"⟩ "foo_bar") := by
  exact c7_last_match_wins _ ⟨"src/lib.rs"⟩ 7 6 _
    (Item.mk 6 "foo_bar_h" [⟨[.identTok "source_header"]⟩] .inherited
      (.mod [Item.mk 7 "x" [] .inherited (.struct 0)]))
    (Item.mk 2 "foo_bar" [] .inherited (.mod []))
    rfl (by decide) (by decide) rfl

/-- Claim C2, counterexample.  The claim says the comparison name substituted
for an empty candidate identifier is the BASE FILE NAME of the source unit.
`get_source_file` (modules.rs:476-479) returns the session's source-file path
converted whole to a string, with no base-name extraction: for the session
path `src/lib.rs` the substituted comparison name, and the recorded rename
target, is `src/lib.rs`, not the base file name `lib.rs`. -/
theorem c2_counterexample :
    compareName ⟨"src/lib.rs"⟩ "" = "src/lib.rs" ∧
    baseFileName "src/lib.rs" = "lib.rs" ∧
    ("src/lib.rs" : String) ≠ "lib.rs" ∧
    (matchModules
        ⟨[Item.mk 5 "" [] .inherited (.mod []),
          Item.mk 6 "src/lib.rs_h" [⟨[.identTok "source_header"]⟩] .inherited
            (.mod [Item.mk 7 "x" [] .inherited (.struct 0)])]⟩
        ⟨"src/lib.rs"⟩ 7 6
        ⟨buildItemMap ⟨[Item.mk 5 "" [] .inherited (.mod []),
          Item.mk 6 "src/lib.rs_h" [⟨[.identTok "source_header"]⟩] .inherited
            (.mod [Item.mk 7 "x" [] .inherited (.struct 0)])]⟩, [], [],
          100⟩).newNames.lookup "src/lib.rs_h" = some "src/lib.rs" := by
  exact ⟨by decide, by decide, by decide, by decide⟩

/-- Claim C2, amended: whenever a candidate's identifier is the empty string,
the comparison name used for the substring test and recorded as the rename
target is the session's full source-file path string (`get_source_file`),
which is non-empty whenever that path string is non-empty. -/
theorem c2_root_name_substitution :
    (∀ sess : Session, compareName sess "" = getSourceFile sess) ∧
    (∀ sess : Session, getSourceFile sess ≠ "" → compareName sess "" ≠ "") ∧
    (∀ (krate : Crate) (sess : Session) (oldModItemId oldModId : NodeId)
        (info : ModuleInformation) (oldMod m : Item),
      info.itemMap.lookup oldModId = some oldMod →
      isStd oldMod.attrs = false →
      hasSourceHeader oldMod.attrs = true →
      lastMatchOpt (candMatches sess oldMod.ident) (allItems krate) = some m →
      m.ident = "" →
      (matchModules krate sess oldModItemId oldModId
          info).newNames.lookup oldMod.ident = some (getSourceFile sess)) := by
  refine ⟨fun sess => rfl, ?_, ?_⟩
  · intro sess h
    have hc : compareName sess "" = getSourceFile sess := rfl
    rw [hc]
    exact h
  intro krate sess oldModItemId oldModId info oldMod m h1 h2 h3 h4 h5
  unfold matchModules
  rw [h1]
  simp only [h2, h3, Bool.false_eq_true, if_false, if_true]
  have hfold := matchFold_lastMatch sess oldMod oldModItemId (allItems krate) info
  rw [h4] at hfold
  have hB : (List.foldl (matchScanStep sess oldMod oldModItemId) info
      (allItems krate)).newNames.lookup oldMod.ident =
      some (compareName sess m.ident) := (Prod.ext_iff.mp hfold).2
  rw [h5] at hB
  exact hB

/-- Claim C2 witness: the amended theorem applied to a crate whose only
candidate is the empty-named root module, with session path `src/lib.rs`. -/
theorem c2_witness :
    compareName ⟨"src/lib.rs"⟩ "" = getSourceFile ⟨"src/lib.rs"⟩ ∧
    compareName ⟨"src/lib.rs"⟩ "" ≠ "" ∧
    (matchModules
        ⟨[Item.mk 5 "" [] .inherited (.mod []),
          Item.mk 6 "src/lib.rs_h" [⟨[.identTok "source_header"]⟩] .inherited
            (.mod [Item.mk 7 "x" [] .inherited (.struct 0)])]⟩
        ⟨"src/lib.rs"⟩ 7 6
        ⟨buildItemMap ⟨[Item.mk 5 "" [] .inherited (.mod []),
          Item.mk 6 "src/lib.rs_h" [⟨[.identTok "source_header"]⟩] .inherited
            (.mod [Item.mk 7 "x" [] .inherited (.struct 0)])]⟩, [], [],
          100⟩).newNames.lookup "src/lib.rs_h" =
      some (getSourceFile ⟨"src/lib.rs"⟩) := by
  refine ⟨c2_root_name_substitution.1 ⟨"src/lib.rs"⟩,
    c2_root_name_substitution.2.1 ⟨"src/lib.rs"⟩ (by decide), ?_⟩
  exact c2_root_name_substitution.2.2 _ ⟨"src/lib.rs"⟩ 7 6 _
    (Item.mk 6 "src/lib.rs_h" [⟨[.identTok "source_header"]⟩] .inherited
      (.mod [Item.mk 7 "x" [] .inherited (.struct 0)]))
    (Item.mk 5 "" [] .inherited (.mod []))
    rfl (by decide) (by decide) rfl rfl

/-- The concatenated insertion vectors contributed to destination `d` by the
pairings of `l`, in encounter order. -/
def vecsFor (info : ModuleInformation) (l : List (NodeId × NodeId))
    (d : NodeId) : List NodeId :=
  ((l.filter (fun p => p.2 == d)).map (destVec info)).flatten

theorem stage1_fold_lookup (info : ModuleInformation) :
    ∀ (l : List (NodeId × NodeId)) (acc : List (NodeId × List NodeId))
      (d : NodeId),
      ((l.foldl (fun acc p => appendAt acc p.2 (destVec info p)) acc).lookup d) =
        (if (acc.lookup d).isSome || l.any (fun p => p.2 == d) then
          some ((acc.lookup d).getD [] ++ vecsFor info l d)
        else none) := by
  intro l
  induction l with
  | nil =>
    intro acc d
    cases h : acc.lookup d with
    | some g => simp [h, vecsFor]
    | none => simp [h, vecsFor]
  | cons p l ih =>
    intro acc d
    rw [List.foldl_cons, ih]
    by_cases hd : (p.2 == d) = true
    · have hd' : p.2 = d := eq_of_beq hd
      subst hd'
      rw [lookup_appendAt_self]
      have hv : vecsFor info (p :: l) p.2 =
          destVec info p ++ vecsFor info l p.2 := by
        simp [vecsFor, List.filter_cons]
      rw [hv]
      simp [List.append_assoc]
    · have hd2 : (p.2 == d) = false := by simpa using hd
      rw [lookup_appendAt_ne _ _ _ _ (beq_symm_false hd2)]
      have hv : vecsFor info (p :: l) d = vecsFor info l d := by
        simp [vecsFor, List.filter_cons, hd2]
      rw [hv, List.any_cons, hd2, Bool.false_or]

theorem nodupKeys_eq {l : List (NodeId × NodeId)}
    (hnd : (l.map Prod.fst).Nodup) {k a b : NodeId}
    (ha : (k, a) ∈ l) (hb : (k, b) ∈ l) : a = b := by
  induction l with
  | nil => simp at ha
  | cons p ps ih =>
    rw [List.map_cons, List.nodup_cons] at hnd
    rcases List.mem_cons.mp ha with h1 | h1 <;>
      rcases List.mem_cons.mp hb with h2 | h2
    · rw [← h1] at h2
      exact (Prod.mk.injEq _ _ _ _).mp h2.symm |>.2
    · exfalso
      apply hnd.1
      have : k = p.1 := by rw [← h1]
      rw [this] at h2
      exact List.mem_map.mpr ⟨(p.1, b), h2, rfl⟩
    · exfalso
      apply hnd.1
      have : k = p.1 := by rw [← h2]
      rw [this] at h1
      exact List.mem_map.mpr ⟨(p.1, a), h1, rfl⟩
    · exact ih hnd.2 h1 h2

/-- Claim C5: per-pairing filtering of the merge planner
(modules.rs:376-435).  Under a well-formed snapshot (`item_map` maps each
identity to an item carrying it), for the pairing
`(oldId, destId)`: (a) when the destination resolves to a module already
holding a node structurally equivalent to the source item, the source
identity never appears in that destination's final insertion list; (b) when
the destination identity is absent from the snapshot while the source item is
present, the pairing is kept unconditionally: the source identity is in the
destination's stage-1 insertion list. -/
theorem c5_merge_plan_filter (info : ModuleInformation)
    (oldId destId : NodeId) (oldItem : Item)
    (hwf : ∀ k v, info.itemMap.lookup k = some v → v.id = k)
    (hmem : (oldId, destId) ∈ info.declDestinationMod)
    (hold : info.itemMap.lookup oldId = some oldItem) :
    (∀ (dm : Item) (ds : List Item),
      info.itemMap.lookup destId = some dm → dm.node = .mod ds →
      ds.any (fun di => kindEquiv di.node oldItem.node) = true →
      ∀ g, (cleanModuleItems info).lookup destId = some g → oldId ∉ g) ∧
    (info.itemMap.lookup destId = none →
      ∃ g, (stage1 info).lookup destId = some g ∧ oldId ∈ g) := by
  have hany : info.declDestinationMod.any (fun p => p.2 == destId) = true :=
    List.any_eq_true.mpr ⟨(oldId, destId), hmem, by simp⟩
  have hs1 : (stage1 info).lookup destId =
      some (vecsFor info info.declDestinationMod destId) := by
    unfold stage1
    rw [stage1_fold_lookup info info.declDestinationMod [] destId]
    simp [hany]
  constructor
  · intro dm ds hdm hds hany2 g hg hin
    unfold cleanModuleItems removeDuplicates at hg
    rw [lookup_map_vals (fun v => dedupGo info.itemMap v v) (stage1 info)
      destId, hs1] at hg
    simp only [Option.map_some'] at hg
    obtain rfl : dedupGo info.itemMap
        (vecsFor info info.declDestinationMod destId)
        (vecsFor info info.declDestinationMod destId) = g :=
      Option.some.inj hg
    have hin0 := dedupGo_subset info.itemMap _ _ oldId hin
    unfold vecsFor at hin0
    rw [List.mem_flatten] at hin0
    obtain ⟨vec, hvec, hinvec⟩ := hin0
    rw [List.mem_map] at hvec
    obtain ⟨p, hp, rfl⟩ := hvec
    rw [List.mem_filter] at hp
    obtain ⟨hpl, hpd⟩ := hp
    have hpd' : p.2 = destId := eq_of_beq hpd
    -- from membership in the vector, the pairing is the given one
    have hp1 : p.1 = oldId := by
      cases hl1 : info.itemMap.lookup p.1 with
      | none => simp [destVec, hl1] at hinvec
      | some oi =>
        have hoi : oi.id = p.1 := hwf p.1 oi hl1
        cases hl2 : info.itemMap.lookup p.2 with
        | none =>
          simp [destVec, hl1, hl2] at hinvec
          rw [← hinvec] at hoi
          exact hoi.symm
        | some destM =>
          cases hnode : destM.node with
          | mod items2 =>
            simp only [destVec, hl1, hl2, hnode] at hinvec
            by_cases hc : items2.any (fun di => kindEquiv di.node oi.node) = true
            · simp [hc] at hinvec
            · simp [hc] at hinvec
              rw [← hinvec] at hoi
              exact hoi.symm
          | foreignMod fs => simp [destVec, hl1, hl2, hnode] at hinvec
          | use segs => simp [destVec, hl1, hl2, hnode] at hinvec
          | struct cc => simp [destVec, hl1, hl2, hnode] at hinvec
          | fn cc => simp [destVec, hl1, hl2, hnode] at hinvec
          | ty cc => simp [destVec, hl1, hl2, hnode] at hinvec
          | other cc => simp [destVec, hl1, hl2, hnode] at hinvec
    have hpeq : p = (oldId, destId) := by
      obtain ⟨a, b⟩ := p
      simp only [Prod.mk.injEq]
      exact ⟨hp1, hpd'⟩
    rw [hpeq] at hinvec
    simp [destVec, hold, hdm, hds, hany2] at hinvec
  · intro hdn
    refine ⟨vecsFor info info.declDestinationMod destId, hs1, ?_⟩
    unfold vecsFor
    rw [List.mem_flatten]
    refine ⟨destVec info (oldId, destId),
      List.mem_map.mpr ⟨(oldId, destId),
        List.mem_filter.mpr ⟨hmem, by simp⟩, rfl⟩, ?_⟩
    have hid : oldItem.id = oldId := hwf oldId oldItem hold
    simp [destVec, hold, hdn, hid]

/-- Claim C5 witness: a pairing whose destination module already holds a
node-equivalent struct contributes nothing: the destination's final group is
empty. -/
theorem c5_witness :
    (cleanModuleItems ⟨[(1, Item.mk 1 "w" [] .inherited (.struct 3)),
        (5, Item.mk 5 "m" [] .inherited
          (.mod [Item.mk 9 "w2" [] .inherited (.struct 3)]))],
      [(1, 5)], [], 100⟩).lookup 5 = some [] ∧
    (1 : NodeId) ∉ ([] : List NodeId) := by
  constructor
  · decide
  · refine (c5_merge_plan_filter
      ⟨[(1, Item.mk 1 "w" [] .inherited (.struct 3)),
        (5, Item.mk 5 "m" [] .inherited
          (.mod [Item.mk 9 "w2" [] .inherited (.struct 3)]))],
        [(1, 5)], [], 100⟩ 1 5
      (Item.mk 1 "w" [] .inherited (.struct 3)) ?_ (by decide) rfl).1
      (Item.mk 5 "m" [] .inherited
        (.mod [Item.mk 9 "w2" [] .inherited (.struct 3)]))
      [Item.mk 9 "w2" [] .inherited (.struct 3)] rfl rfl (by decide) []
      (by decide)
    intro k v hv
    rw [lookup_cons', lookup_cons'] at hv
    by_cases h1 : (k == (1 : NodeId)) = true
    · rw [if_pos h1] at hv
      have hveq := Option.some.inj hv
      rw [eq_of_beq h1, ← hveq]
      rfl
    · rw [if_neg h1] at hv
      by_cases h5 : (k == (5 : NodeId)) = true
      · rw [if_pos h5] at hv
        have hveq := Option.some.inj hv
        rw [eq_of_beq h5, ← hveq]
        rfl
      · rw [if_neg h5] at hv
        exact Option.noConfusion hv

/-- An item whose `use` path (if any) is left unchanged by the cleanse. -/
def pathCleanAt (j : Item) : Prop :=
  ∀ segs, j.node = ItemKind.use segs → cleansePath segs = segs

mutual

theorem cpItems_id : ∀ (l : List Item),
    (∀ j ∈ itemsDesc l, pathCleanAt j) → cpItems l = l
  | [], _ => rfl
  | i :: is, h => by
      have h1 : ∀ j ∈ i :: itemDesc i, pathCleanAt j := fun j hj =>
        h j (by
          show j ∈ (i :: itemDesc i) ++ itemsDesc is
          exact List.mem_append_left _ hj)
      have h2 : ∀ j ∈ itemsDesc is, pathCleanAt j := fun j hj =>
        h j (by
          show j ∈ (i :: itemDesc i) ++ itemsDesc is
          exact List.mem_append_right _ hj)
      show cpItem i :: cpItems is = i :: is
      rw [cpItem_id i h1, cpItems_id is h2]

theorem cpItem_id : ∀ (i : Item),
    (∀ j ∈ i :: itemDesc i, pathCleanAt j) → cpItem i = i
  | .mk idv nm ats vs (.mod ms), h => by
      have hms : ∀ j ∈ itemsDesc ms, pathCleanAt j := fun j hj =>
        h j (List.mem_cons_of_mem _ hj)
      show Item.mk idv nm ats vs (.mod (cpItems ms)) = _
      rw [cpItems_id ms hms]
  | .mk idv nm ats vs (.use segs), h => by
      have hu := h (.mk idv nm ats vs (.use segs))
        (List.mem_cons_self _ _) segs rfl
      show Item.mk idv nm ats vs (.use (cleansePath segs)) = _
      rw [hu]
  | .mk _ _ _ _ (.foreignMod _), _ => rfl
  | .mk _ _ _ _ (.struct _), _ => rfl
  | .mk _ _ _ _ (.fn _), _ => rfl
  | .mk _ _ _ _ (.ty _), _ => rfl
  | .mk _ _ _ _ (.other _), _ => rfl

end

/-- An item not marked for the generated-container purge. -/
def unmarkedAt (j : Item) : Prop :=
  hasSourceHeader j.attrs = false ∧ isStd j.attrs = false

mutual

theorem purgeItems_id : ∀ (l : List Item),
    (∀ j ∈ itemsDesc l, unmarkedAt j) → purgeItems l = l
  | [], _ => rfl
  | i :: is, h => by
      have hi := h i (by
        show i ∈ (i :: itemDesc i) ++ itemsDesc is
        exact List.mem_append_left _ (List.mem_cons_self _ _))
      have h1 : ∀ j ∈ i :: itemDesc i, unmarkedAt j := fun j hj =>
        h j (by
          show j ∈ (i :: itemDesc i) ++ itemsDesc is
          exact List.mem_append_left _ hj)
      have h2 : ∀ j ∈ itemsDesc is, unmarkedAt j := fun j hj =>
        h j (by
          show j ∈ (i :: itemDesc i) ++ itemsDesc is
          exact List.mem_append_right _ hj)
      show (if hasSourceHeader i.attrs || isStd i.attrs then purgeItems is
        else purgeMapItem i :: purgeItems is) = i :: is
      rw [hi.1, hi.2]
      simp only [Bool.or_self, Bool.false_eq_true, if_false]
      rw [purgeMapItem_id i h1, purgeItems_id is h2]

theorem purgeMapItem_id : ∀ (i : Item),
    (∀ j ∈ i :: itemDesc i, unmarkedAt j) → purgeMapItem i = i
  | .mk idv nm ats vs (.mod ms), h => by
      have hms : ∀ j ∈ itemsDesc ms, unmarkedAt j := fun j hj =>
        h j (List.mem_cons_of_mem _ hj)
      show Item.mk idv nm ats vs (purgeKind (.mod ms)) = _
      show Item.mk idv nm ats vs (.mod (purgeItems ms)) = _
      rw [purgeItems_id ms hms]
  | .mk _ _ _ _ (.foreignMod _), _ => rfl
  | .mk _ _ _ _ (.use _), _ => rfl
  | .mk _ _ _ _ (.struct _), _ => rfl
  | .mk _ _ _ _ (.fn _), _ => rfl
  | .mk _ _ _ _ (.ty _), _ => rfl
  | .mk _ _ _ _ (.other _), _ => rfl

end

mutual

theorem insItems_empty_plan (im : List (NodeId × Item)) : ∀ (l : List Item),
    insItems [] im l = l
  | [] => rfl
  | i :: is => by
      show insItem [] im i :: insItems [] im is = i :: is
      rw [insItem_empty_plan im i, insItems_empty_plan im is]

theorem insItem_empty_plan (im : List (NodeId × Item)) : ∀ (i : Item),
    insItem [] im i = i
  | .mk idv nm ats vs (.mod ms) => by
      show Item.mk idv nm ats vs
        (.mod (insItems [] im ms ++
          match (([] : List (NodeId × List NodeId)).lookup idv) with
          | some newIds => newIds.filterMap (fun nid => im.lookup nid)
          | none => [])) = _
      rw [insItems_empty_plan im ms]
      simp [List.lookup]
  | .mk _ _ _ _ (.foreignMod _) => rfl
  | .mk _ _ _ _ (.use _) => rfl
  | .mk _ _ _ _ (.struct _) => rfl
  | .mk _ _ _ _ (.fn _) => rfl
  | .mk _ _ _ _ (.ty _) => rfl
  | .mk _ _ _ _ (.other _) => rfl

end

theorem map_lookup_nil (segs : List Ident) :
    segs.map (fun s => ((([] : List (Ident × Ident)).lookup s).getD s)) = segs := by
  induction segs with
  | nil => rfl
  | cons s ss ih => simp [List.lookup, ih]

mutual

theorem renItems_empty : ∀ (l : List Item), renItems [] l = l
  | [] => rfl
  | i :: is => by
      show renItem [] i :: renItems [] is = i :: is
      rw [renItem_empty i, renItems_empty is]

theorem renItem_empty : ∀ (i : Item), renItem [] i = i
  | .mk idv nm ats vs (.mod ms) => by
      show Item.mk idv nm ats vs (.mod (renItems [] ms)) = _
      rw [renItems_empty ms]
  | .mk idv nm ats vs (.use segs) => by
      show Item.mk idv nm ats vs
        (.use (segs.map (fun s => ((([] : List (Ident × Ident)).lookup s).getD s)))) = _
      rw [map_lookup_nil segs]
  | .mk _ _ _ _ (.foreignMod _) => rfl
  | .mk _ _ _ _ (.struct _) => rfl
  | .mk _ _ _ _ (.fn _) => rfl
  | .mk _ _ _ _ (.ty _) => rfl
  | .mk _ _ _ _ (.other _) => rfl

end

/-- An item whose foreign block (if any) is fully retained by the
duplicate-foreign-block purge against snapshot `im`, starting from an empty
deleted set. -/
def foreignCleanAt (im : List (NodeId × Item)) (j : Item) : Prop :=
  ∀ fs, j.node = ItemKind.foreignMod fs →
    ∀ f ∈ fs, pdAPred im [] (ItemKind.foreignMod fs) j.id f = (true, [])

theorem retainForeign_id (im : List (NodeId × Item)) (pn : ItemKind)
    (pid : NodeId) : ∀ (fs : List ForeignItem),
    (∀ f ∈ fs, pdAPred im [] pn pid f = (true, [])) →
    retainForeign im pn pid [] fs = (fs, []) := by
  intro fs
  induction fs with
  | nil => intro _; rfl
  | cons f fs ih =>
    intro h
    have hf := h f (List.mem_cons_self _ _)
    show (match pdAPred im [] pn pid f with
      | (keep, del') =>
        match retainForeign im pn pid del' fs with
        | (fs', del'') => (if keep then f :: fs' else fs', del'')) = _
    simp only [hf, ih (fun g hg => h g (List.mem_cons_of_mem _ hg)), if_true]

mutual

theorem pdAItems_id (im : List (NodeId × Item)) : ∀ (l : List Item),
    (∀ j ∈ itemsDesc l, foreignCleanAt im j) → pdAItems im [] l = (l, [])
  | [], _ => rfl
  | i :: is, h => by
      have h1 : ∀ j ∈ i :: itemDesc i, foreignCleanAt im j := fun j hj =>
        h j (by
          show j ∈ (i :: itemDesc i) ++ itemsDesc is
          exact List.mem_append_left _ hj)
      have h2 : ∀ j ∈ itemsDesc is, foreignCleanAt im j := fun j hj =>
        h j (by
          show j ∈ (i :: itemDesc i) ++ itemsDesc is
          exact List.mem_append_right _ hj)
      show (match pdAItem im [] i with
        | (i', del') =>
          match pdAItems im del' is with
          | (is', del'') => (i' :: is', del'')) = _
      simp only [pdAItem_id im i h1, pdAItems_id im is h2]

theorem pdAItem_id (im : List (NodeId × Item)) : ∀ (i : Item),
    (∀ j ∈ i :: itemDesc i, foreignCleanAt im j) → pdAItem im [] i = (i, [])
  | .mk idv nm ats vs (.mod ms), h => by
      have hms : ∀ j ∈ itemsDesc ms, foreignCleanAt im j := fun j hj =>
        h j (List.mem_cons_of_mem _ hj)
      show (match pdAItems im [] ms with
        | (ms', del') => ((Item.mk idv nm ats vs (.mod ms') : Item), del')) = _
      simp only [pdAItems_id im ms hms]
  | .mk idv nm ats vs (.foreignMod fs), h => by
      have hf := h (.mk idv nm ats vs (.foreignMod fs))
        (List.mem_cons_self _ _) fs rfl
      show (match retainForeign im (.foreignMod fs) idv [] fs with
        | (fs', del') => ((Item.mk idv nm ats vs (.foreignMod fs') : Item), del')) = _
      simp only [retainForeign_id im (.foreignMod fs) idv fs hf]
  | .mk _ _ _ _ (.use _), _ => rfl
  | .mk _ _ _ _ (.struct _), _ => rfl
  | .mk _ _ _ _ (.fn _), _ => rfl
  | .mk _ _ _ _ (.ty _), _ => rfl
  | .mk _ _ _ _ (.other _), _ => rfl

end

/-- An item whose module body (if any) has every `use` child survive the
dead-import purge. -/
def useCleanAt (j : Item) : Prop :=
  ∀ ms, j.node = ItemKind.mod ms → ∀ u ∈ ms, keepUse ms u = true

mutual

theorem pdBItems_id : ∀ (l : List Item),
    (∀ j ∈ itemsDesc l, useCleanAt j) → pdBItems l = l
  | [], _ => rfl
  | i :: is, h => by
      have h1 : ∀ j ∈ i :: itemDesc i, useCleanAt j := fun j hj =>
        h j (by
          show j ∈ (i :: itemDesc i) ++ itemsDesc is
          exact List.mem_append_left _ hj)
      have h2 : ∀ j ∈ itemsDesc is, useCleanAt j := fun j hj =>
        h j (by
          show j ∈ (i :: itemDesc i) ++ itemsDesc is
          exact List.mem_append_right _ hj)
      show pdBItem i :: pdBItems is = i :: is
      rw [pdBItem_id i h1, pdBItems_id is h2]

theorem pdBItem_id : ∀ (i : Item),
    (∀ j ∈ i :: itemDesc i, useCleanAt j) → pdBItem i = i
  | .mk idv nm ats vs (.mod ms), h => by
      have hms : ∀ j ∈ itemsDesc ms, useCleanAt j := fun j hj =>
        h j (List.mem_cons_of_mem _ hj)
      have hself := h (.mk idv nm ats vs (.mod ms))
        (List.mem_cons_self _ _) ms rfl
      show (match pdBItems ms with
        | ms' => (Item.mk idv nm ats vs (.mod (ms'.filter (keepUse ms'))) : Item)) = _
      rw [pdBItems_id ms hms]
      show Item.mk idv nm ats vs (.mod (ms.filter (keepUse ms))) = _
      rw [List.filter_eq_self.mpr hself]
  | .mk _ _ _ _ (.foreignMod _), _ => rfl
  | .mk _ _ _ _ (.use _), _ => rfl
  | .mk _ _ _ _ (.struct _), _ => rfl
  | .mk _ _ _ _ (.fn _), _ => rfl
  | .mk _ _ _ _ (.ty _), _ => rfl
  | .mk _ _ _ _ (.other _), _ => rfl

end

theorem matchModules_noop (krate : Crate) (sess : Session) (a b : NodeId)
    (inf : ModuleInformation)
    (h : ∀ v, inf.itemMap.lookup b = some v →
      isStd v.attrs = false ∧ hasSourceHeader v.attrs = false) :
    matchModules krate sess a b inf = inf := by
  unfold matchModules
  cases hl : inf.itemMap.lookup b with
  | none => rfl
  | some v =>
    obtain ⟨h1, h2⟩ := h v hl
    simp [h1, h2]

theorem matchPhase_noop (k1 : Crate) (sess : Session)
    (info : ModuleInformation)
    (h : ∀ b v, info.itemMap.lookup b = some v →
      isStd v.attrs = false ∧ hasSourceHeader v.attrs = false) :
    matchPhase k1 sess info = info := by
  unfold matchPhase
  have hinner : ∀ (ms : List Item) (it : Item),
      ms.foldl (fun inf2 mi => matchModules k1 sess mi.id it.id inf2) info =
        info := by
    intro ms it
    induction ms with
    | nil => rfl
    | cons mi ms ih =>
      rw [List.foldl_cons, matchModules_noop k1 sess mi.id it.id info (h it.id)]
      exact ih
  have houter : ∀ (l : List Item),
      l.foldl (fun inf it =>
        match it.node with
        | .mod ms =>
          ms.foldl (fun inf2 mi => matchModules k1 sess mi.id it.id inf2) inf
        | _ => inf) info = info := by
    intro l
    induction l with
    | nil => rfl
    | cons it l ih =>
      rw [List.foldl_cons]
      cases hk : it.node with
      | mod ms =>
        simp only [hk]
        rw [hinner ms it]
        exact ih
      | foreignMod fs => simpa [hk] using ih
      | use segs => simpa [hk] using ih
      | struct cc => simpa [hk] using ih
      | fn cc => simpa [hk] using ih
      | ty cc => simpa [hk] using ih
      | other cc => simpa [hk] using ih
  exact houter (allItems k1)

/-- Some key maps to this value in the association list. -/
def memVal (m : List (NodeId × Item)) (v : Item) : Prop :=
  ∃ k, (k, v) ∈ m

theorem lookup_memVal (m : List (NodeId × Item)) (k : NodeId) (v : Item)
    (h : m.lookup k = some v) : memVal m v := by
  induction m with
  | nil => simp [List.lookup] at h
  | cons p ps ih =>
    obtain ⟨a, b⟩ := p
    rw [lookup_cons'] at h
    by_cases hk : (k == a) = true
    · rw [if_pos hk] at h
      exact ⟨a, by rw [Option.some.inj h]; exact List.mem_cons_self _ _⟩
    · rw [if_neg hk] at h
      obtain ⟨k', hk'⟩ := ih h
      exact ⟨k', List.mem_cons_of_mem _ hk'⟩

theorem alInsert_memVal (m : List (NodeId × Item)) (k : NodeId) (v w : Item)
    (h : memVal (alInsert m k v) w) : w = v ∨ memVal m w := by
  obtain ⟨k', hk'⟩ := h
  unfold alInsert at hk'
  by_cases hs : (m.lookup k).isSome
  · rw [if_pos hs] at hk'
    obtain ⟨p, hp, hpe⟩ := List.mem_map.mp hk'
    by_cases hpk : (p.1 == k) = true
    · rw [if_pos hpk] at hpe
      left
      exact ((Prod.mk.injEq _ _ _ _).mp hpe).2.symm
    · rw [if_neg hpk] at hpe
      right
      rw [hpe] at hp
      exact ⟨k', hp⟩
  · rw [if_neg hs] at hk'
    rcases List.mem_append.mp hk' with h1 | h1
    · right; exact ⟨k', h1⟩
    · left
      have h2 := List.mem_singleton.mp h1
      exact ((Prod.mk.injEq _ _ _ _).mp h2).2

mutual

theorem visitItems_memVal : ∀ (l : List Item)
    (acc : List (NodeId × Item)) (w : Item),
    memVal (visitItems acc l) w → memVal acc w ∨ w ∈ itemsDesc l
  | [], _, _ => fun h => Or.inl h
  | .mk idv nm ats vs k :: is, acc, w => fun h => by
      have h1 := visitItems_memVal is
        (visitKind (alInsert acc idv (.mk idv nm ats vs k)) k) w h
      rcases h1 with h2 | h2
      · have h3 := visitKind_memVal k (alInsert acc idv (.mk idv nm ats vs k)) w h2
        rcases h3 with h4 | h4
        · rcases alInsert_memVal acc idv (.mk idv nm ats vs k) w h4 with h5 | h5
          · right
            show w ∈ (Item.mk idv nm ats vs k :: itemDesc (.mk idv nm ats vs k)) ++
              itemsDesc is
            exact List.mem_append_left _ (h5 ▸ List.mem_cons_self _ _)
          · exact Or.inl h5
        · right
          show w ∈ (Item.mk idv nm ats vs k :: itemDesc (.mk idv nm ats vs k)) ++
            itemsDesc is
          exact List.mem_append_left _ (List.mem_cons_of_mem _ h4)
      · right
        show w ∈ (Item.mk idv nm ats vs k :: itemDesc (.mk idv nm ats vs k)) ++
          itemsDesc is
        exact List.mem_append_right _ h2

theorem visitKind_memVal : ∀ (k : ItemKind) (acc : List (NodeId × Item))
    (w : Item), memVal (visitKind acc k) w → memVal acc w ∨ w ∈ kindDesc k
  | .mod ms, acc, w => fun h => visitItems_memVal ms acc w h
  | .foreignMod _, _, _ => fun h => Or.inl h
  | .use _, _, _ => fun h => Or.inl h
  | .struct _, _, _ => fun h => Or.inl h
  | .fn _, _, _ => fun h => Or.inl h
  | .ty _, _, _ => fun h => Or.inl h
  | .other _, _, _ => fun h => Or.inl h

end

theorem buildItemMap_lookup_mem (c : Crate) (k : NodeId) (v : Item)
    (h : (buildItemMap c).lookup k = some v) : v ∈ allItems c := by
  have h1 := lookup_memVal _ _ _ h
  rcases visitItems_memVal c.items [] v h1 with h2 | h2
  · obtain ⟨k', hk'⟩ := h2
    simp at hk'
  · exact h2

/-- Claim C9, amended: the full transform returns the input tree unchanged on
a tree with no generated containers, provided additionally that no pass has
independent work to do: every multi-segment path is free of scope markers
(the cleanse), every foreign block survives the duplicate-foreign-block purge
predicate, and no module holds an import made dead by a sibling declaration
(the dead-import purge).  Without those extra conditions the pass sequence is
not a no-op even on a fully-merged tree (see the counterexample). -/
theorem c9_transform_on_merged (sess : Session) (sid : NodeId) (c : Crate)
    (hGen : ∀ i ∈ allItems c,
      hasSourceHeader i.attrs = false ∧ isStd i.attrs = false)
    (hPath : ∀ i ∈ allItems c, pathCleanAt i)
    (hForeign : ∀ i ∈ allItems c, foreignCleanAt (buildItemMap c) i)
    (hUse : ∀ i ∈ allItems c, useCleanAt i) :
    transform sess sid c = some c := by
  have hcl : cleansePass c = c := by
    unfold cleansePass
    rw [cpItems_id c.items hPath]
  unfold transform transformCore
  rw [hcl]
  have hmap : ∀ b v, (buildItemMap c).lookup b = some v →
      isStd v.attrs = false ∧ hasSourceHeader v.attrs = false := by
    intro b v hv
    have hmem := buildItemMap_lookup_mem c b v hv
    exact ⟨(hGen v hmem).2, (hGen v hmem).1⟩
  have hmatch : matchPhase c sess ⟨buildItemMap c, [], [], sid⟩ =
      ⟨buildItemMap c, [], [], sid⟩ :=
    matchPhase_noop c sess _ hmap
  unfold transformPlanned
  rw [hmatch]
  have hplan : cleanModuleItems
      (⟨buildItemMap c, [], [], sid⟩ : ModuleInformation) = [] := rfl
  rw [hplan]
  have hins : insertPass c []
      (ModuleInformation.mk (buildItemMap c) [] [] sid).itemMap = c := by
    unfold insertPass
    rw [insItems_empty_plan _ c.items]
  rw [hins]
  have hext : extendCrate c []
      (⟨buildItemMap c, [], [], sid⟩ : ModuleInformation) = some c := rfl
  rw [hext]
  show some (finalPasses c ⟨buildItemMap c, [], [], sid⟩) = some c
  have hfin : finalPasses c
      (⟨buildItemMap c, [], [], sid⟩ : ModuleInformation) = c := by
    unfold finalPasses
    have hren : renamePass c
        (⟨buildItemMap c, [], [], sid⟩ : ModuleInformation).newNames = c := by
      show renamePass c [] = c
      unfold renamePass
      rw [renItems_empty c.items]
    rw [hren]
    have hpm : purgeMarked c = c := by
      unfold purgeMarked
      rw [purgeItems_id c.items hGen]
    rw [hpm]
    unfold purgeDuplicates
    simp only [pdAItems_id (buildItemMap c) c.items hForeign]
    rw [pdBItems_id c.items hUse]
  rw [hfin]

/-- Claim C9, counterexample.  A tree with no generated containers (no
attributes at all) holding a module with a struct `w` and an import whose
path names `w`: the full transform is not a no-op, because the dead-import
purge (modules.rs:284-321) removes the import regardless of whether any
generated container existed. -/
theorem c9_counterexample :
    (∀ i ∈ allItems ⟨[Item.mk 1 "m" [] .inherited
        (.mod [Item.mk 2 "w" [] .inherited (.struct 0),
               Item.mk 3 "" [] .inherited (.use ["w", "x"])])]⟩,
      hasSourceHeader i.attrs = false ∧ isStd i.attrs = false) ∧
    transform ⟨"src/lib.rs"⟩ 100
        ⟨[Item.mk 1 "m" [] .inherited
          (.mod [Item.mk 2 "w" [] .inherited (.struct 0),
                 Item.mk 3 "" [] .inherited (.use ["w", "x"])])]⟩ =
      some ⟨[Item.mk 1 "m" [] .inherited
        (.mod [Item.mk 2 "w" [] .inherited (.struct 0)])]⟩ ∧
    (⟨[Item.mk 1 "m" [] .inherited
        (.mod [Item.mk 2 "w" [] .inherited (.struct 0)])]⟩ : Crate) ≠
      ⟨[Item.mk 1 "m" [] .inherited
        (.mod [Item.mk 2 "w" [] .inherited (.struct 0),
               Item.mk 3 "" [] .inherited (.use ["w", "x"])])]⟩ := by
  refine ⟨by decide, rfl, fun h => ?_⟩
  have hsz := congrArg crateSize h
  exact absurd hsz (by decide)

/-- Claim C9 witness: the amended theorem applied to a one-module tree with
no generated containers, no scope-marker paths, no foreign blocks and no
dead imports. -/
theorem c9_witness :
    transform ⟨"src/lib.rs"⟩ 100
        ⟨[Item.mk 1 "m" [] .inherited
          (.mod [Item.mk 2 "w" [] .inherited (.struct 0)])]⟩ =
      some ⟨[Item.mk 1 "m" [] .inherited
        (.mod [Item.mk 2 "w" [] .inherited (.struct 0)])]⟩ := by
  apply c9_transform_on_merged
  · decide
  · intro i hi
    simp [allItems, itemsDesc, itemDesc, kindDesc] at hi
    rcases hi with rfl | rfl <;>
      (intro segs hseg; simp [Item.node] at hseg)
  · intro i hi
    simp [allItems, itemsDesc, itemDesc, kindDesc] at hi
    rcases hi with rfl | rfl <;>
      (intro fs hf; simp [Item.node] at hf)
  · intro i hi
    simp [allItems, itemsDesc, itemDesc, kindDesc] at hi
    rcases hi with rfl | rfl
    · intro ms hm u hu
      simp [Item.node] at hm
      subst hm
      simp at hu
      subst hu
      decide
    · intro ms hm u hu
      simp [Item.node] at hm
